import Mathlib

/-!
Shallow embedding of the expiry-date extraction engine of `src/app.py`
(functions `normalize_expiry_date`, `extract_expiry_dates`,
`create_google_calendar_link`), together with proofs checking the
natural-language specification's claims against it.

Python strings are modelled as Lean `String` (a list of characters);
the helpers below reproduce the exact behaviour of the Python string
and `re` operations that the source uses, specialised to the two fixed
date regexes and the fixed keyword regex of the source.  The single
ambient dependency of the source — `datetime.now()` used for century
resolution (app.py lines 41 and 54) — is threaded through as an
explicit `current_century` argument (the value of
`str(datetime.now().year)[:2]` at call time).
-/

namespace OCRApp

/-! ## Basic string helpers (Python `str.split('/')`, `str.zfill`, `int`, `str.splitlines`) -/

/-- Python `s.split('/')` on the character list: split at every `'/'`.
`splitSlash [] = [[]]` matches `"".split('/') == ['']`. -/
def splitSlash : List Char → List (List Char)
  | [] => [[]]
  | c :: rest =>
    if c = '/' then [] :: splitSlash rest
    else
      match splitSlash rest with
      | p :: ps => (c :: p) :: ps
      | [] => [[c]]

/-- The parts of a string split at `'/'`, as strings (Python `s.split('/')`). -/
def strParts (s : String) : List String :=
  (splitSlash s.data).map fun l => ⟨l⟩

/-- Python `int(s)` for a string of decimal digits. -/
def natOfStr (s : String) : Nat :=
  s.data.foldl (fun n c => 10 * n + (c.toNat - 48)) 0

/-- Python `s.zfill(w)`: left-pad with `'0'` to width `w`, keeping a
leading sign character in front of the padding. -/
def zfill (w : Nat) (s : String) : String :=
  if w ≤ s.length then s
  else
    match s.data with
    | c :: rest =>
      if c = '+' ∨ c = '-' then
        ⟨c :: List.replicate (w - s.length) '0' ++ rest⟩
      else ⟨List.replicate (w - s.length) '0' ++ s.data⟩
    | [] => ⟨List.replicate w '0'⟩

/-- Line-break characters recognised by the model of `str.splitlines`
(the source's OCR text only ever contains `'\n'` / `"\r\n"`). -/
def isLineBreak (c : Char) : Bool := c = '\n' || c = '\r'

/-- Python `text.splitlines()` (for texts whose terminators are
`'\n'`, `'\r'` or `"\r\n"`): no trailing empty line for a trailing
terminator, and `"".splitlines() == []`.  The `fuel` argument only
drives structural recursion; every step strictly shortens the
character list, so `fuel = cs.length` always suffices. -/
def splitlinesList : Nat → List Char → List String
  | 0, _ => []
  | _ + 1, [] => []
  | fuel + 1, c :: rest =>
    let line := (c :: rest).takeWhile (fun ch => !isLineBreak ch)
    match (c :: rest).drop line.length with
    | [] => [⟨line⟩]
    | '\r' :: '\n' :: r => ⟨line⟩ :: splitlinesList fuel r
    | _ :: r => ⟨line⟩ :: splitlinesList fuel r

/-- Python `text.splitlines()`. -/
def splitlines (s : String) : List String := splitlinesList s.data.length s.data

/-- Whether `pat` is an initial segment of `l`. -/
def leadsWith : List Char → List Char → Bool
  | [], _ => true
  | _ :: _, [] => false
  | a :: as, b :: bs => a == b && leadsWith as bs

/-- Whether `pat` occurs as a contiguous run inside `l`
(used to state "the URL contains ..."). -/
def listContains (pat : List Char) : List Char → Bool
  | [] => pat.isEmpty
  | c :: rest => leadsWith pat (c :: rest) || listContains pat rest

/-- Whether string `small` occurs as a substring of `big`. -/
def strContains (big small : String) : Bool := listContains small.data big.data

/-! ## The two date regexes (app.py lines 49-52)

`r'(0[1-9]|1[0-2])[\/\-](0[1-9]|[12][0-9]|3[01])[\/\-](\d{2,4})'` and
`r'(0[1-9]|1[0-2])[\/\-](\d{2,4})'`, with `re.findall` scanning.
Each regex is deterministic at a given start position: the month and
day alternatives are distinguished by their first character, and the
trailing `\d{2,4}` is greedy with nothing after it, so no backtracking
can occur. -/

/-- Group `(0[1-9]|1[0-2])`: a month token, consuming two characters. -/
def matchMonth : List Char → Option (String × List Char)
  | '0' :: c :: rest => if '1' ≤ c ∧ c ≤ '9' then some (⟨['0', c]⟩, rest) else none
  | '1' :: c :: rest => if '0' ≤ c ∧ c ≤ '2' then some (⟨['1', c]⟩, rest) else none
  | _ => none

/-- `[\/\-]`: a separator, consuming one character. -/
def matchSep : List Char → Option (List Char)
  | c :: rest => if c = '/' ∨ c = '-' then some rest else none
  | [] => none

/-- Group `(0[1-9]|[12][0-9]|3[01])`: a day token, consuming two characters. -/
def matchDay : List Char → Option (String × List Char)
  | '0' :: c :: rest => if '1' ≤ c ∧ c ≤ '9' then some (⟨['0', c]⟩, rest) else none
  | '1' :: c :: rest => if '0' ≤ c ∧ c ≤ '9' then some (⟨['1', c]⟩, rest) else none
  | '2' :: c :: rest => if '0' ≤ c ∧ c ≤ '9' then some (⟨['2', c]⟩, rest) else none
  | '3' :: c :: rest => if c = '0' ∨ c = '1' then some (⟨['3', c]⟩, rest) else none
  | _ => none

/-- Group `(\d{2,4})`: greedily take up to four leading digits, at least two. -/
def matchYear (cs : List Char) : Option (String × List Char) :=
  let ds := (cs.take 4).takeWhile Char.isDigit
  if 2 ≤ ds.length then some (⟨ds⟩, cs.drop ds.length) else none

/-- One attempted match of the full-date regex at the head of `cs`;
on success, the three captured groups and the number of characters
consumed (month 2 + sep 1 + day 2 + sep 1 + year). -/
def matchFull (cs : List Char) : Option ((String × String × String) × Nat) :=
  match matchMonth cs with
  | none => none
  | some (m, r1) =>
    match matchSep r1 with
    | none => none
    | some r2 =>
      match matchDay r2 with
      | none => none
      | some (d, r3) =>
        match matchSep r3 with
        | none => none
        | some r4 =>
          match matchYear r4 with
          | none => none
          | some (y, _) => some ((m, d, y), 6 + y.length)

/-- One attempted match of the month/year regex at the head of `cs`. -/
def matchMY (cs : List Char) : Option ((String × String) × Nat) :=
  match matchMonth cs with
  | none => none
  | some (m, r1) =>
    match matchSep r1 with
    | none => none
    | some r2 =>
      match matchYear r2 with
      | none => none
      | some (y, _) => some ((m, y), 3 + y.length)

/-- `re.findall` scanning: try a match at every position, left to
right; after a successful match resume at its end.  Both matchers
always consume at least five characters, so `len - 1 + 1` characters
are dropped from the current position, exactly the match's extent.
Produces `(start, end, groups)` per match.  The `fuel` argument only
drives structural recursion; every step strictly shortens the
character list, so `fuel = cs.length` always suffices. -/
def scanAux {α : Type} (m : List Char → Option (α × Nat)) :
    Nat → List Char → Nat → List (Nat × Nat × α)
  | 0, _, _ => []
  | _ + 1, [], _ => []
  | fuel + 1, c :: rest, pos =>
    match m (c :: rest) with
    | some (g, len) =>
      (pos, pos + len, g) :: scanAux m fuel (rest.drop (len - 1)) (pos + len)
    | none => scanAux m fuel rest (pos + 1)

/-- All matches of the full-date regex, with their spans. -/
def findallFullSpans (cs : List Char) : List (Nat × Nat × (String × String × String)) :=
  scanAux matchFull cs.length cs 0

/-- All matches of the month/year regex, with their spans. -/
def findallMYSpans (cs : List Char) : List (Nat × Nat × (String × String)) :=
  scanAux matchMY cs.length cs 0

/-- `re.findall(date_patterns[0], s)`: the group triples, in match order. -/
def findallFull (cs : List Char) : List (String × String × String) :=
  (findallFullSpans cs).map fun t => t.2.2

/-- `re.findall(date_patterns[1], s)`: the group pairs, in match order. -/
def findallMY (cs : List Char) : List (String × String) :=
  (findallMYSpans cs).map fun t => t.2.2

/-! ## The expiry keyword regex (app.py line 48)

`r'(exp(?:iry|iration)?\s*date|exp\s*date|exp\.|expires|valid\s*thru|valid\s*until|exp|good\s*thru|good\s*until|validity|exp)'`
used only as a boolean via `re.search(..., line, re.IGNORECASE)`. -/

/-- Python `\s` (ASCII range). -/
def isSpaceCh (c : Char) : Bool :=
  c = ' ' || c = '\t' || c = '\n' || c = '\x0b' || c = '\x0c' || c = '\r'

/-- Case-insensitive literal: consume `pat` (given lowercase) from `cs`. -/
def litCI : List Char → List Char → Option (List Char)
  | [], cs => some cs
  | _ :: _, [] => none
  | p :: ps, c :: cs => if c.toLower = p then litCI ps cs else none

/-- All suffixes reachable from `cs` by consuming zero or more `\s`
characters (the possible continuations of a `\s*`). -/
def wsTails : List Char → List (List Char)
  | [] => [[]]
  | c :: rest => if isSpaceCh c then (c :: rest) :: wsTails rest else [c :: rest]

/-- Matches `w1 \s* w2` at the head of `cs`. -/
def litWsLit (w1 w2 : List Char) (cs : List Char) : Bool :=
  match litCI w1 cs with
  | none => false
  | some r => (wsTails r).any fun r2 => (litCI w2 r2).isSome

/-- Whether some alternative of the keyword regex matches at the head
of `cs` (alternatives in the source's order). -/
def keywordAt (cs : List Char) : Bool :=
  (match litCI ['e', 'x', 'p'] cs with
   | none => false
   | some r =>
     [litCI ['i', 'r', 'y'] r, litCI ['i', 'r', 'a', 't', 'i', 'o', 'n'] r, some r].any
       fun o =>
         match o with
         | some r2 => (wsTails r2).any fun r3 => (litCI ['d', 'a', 't', 'e'] r3).isSome
         | none => false)
  || litWsLit ['e', 'x', 'p'] ['d', 'a', 't', 'e'] cs
  || (litCI ['e', 'x', 'p', '.'] cs).isSome
  || (litCI ['e', 'x', 'p', 'i', 'r', 'e', 's'] cs).isSome
  || litWsLit ['v', 'a', 'l', 'i', 'd'] ['t', 'h', 'r', 'u'] cs
  || litWsLit ['v', 'a', 'l', 'i', 'd'] ['u', 'n', 't', 'i', 'l'] cs
  || (litCI ['e', 'x', 'p'] cs).isSome
  || litWsLit ['g', 'o', 'o', 'd'] ['t', 'h', 'r', 'u'] cs
  || litWsLit ['g', 'o', 'o', 'd'] ['u', 'n', 't', 'i', 'l'] cs
  || (litCI ['v', 'a', 'l', 'i', 'd', 'i', 't', 'y'] cs).isSome
  || (litCI ['e', 'x', 'p'] cs).isSome

/-- `re.search` as a boolean: does `p` match at some position? -/
def searchAnywhere (p : List Char → Bool) : List Char → Bool
  | [] => p []
  | c :: rest => p (c :: rest) || searchAnywhere p rest

/-- `re.search(expiry_keywords, line, re.IGNORECASE)` as a boolean. -/
def keyword_search (line : String) : Bool := searchAnywhere keywordAt line.toList

/-! ## Century resolution and normalization (app.py lines 30-45, 54, 62-71) -/

/-- `str(datetime.now().year)[:2]`: the first two characters of the
decimal rendering of the current calendar year (app.py lines 41, 54). -/
def current_century (nowYear : Nat) : String := (Nat.repr nowYear).take 2

/-- The century fix applied to a matched year token (app.py lines
40-41 and 64-65, 69-70, 84-85, 89-90, 99-100, 104-105):
`if len(year) == 2: year = current_century + year`. -/
def resolve_century (century year : String) : String :=
  if year.length = 2 then century ++ year else year

/-- `normalize_expiry_date` (app.py lines 30-45), with the ambient
`str(datetime.now().year)[:2]` of line 41 passed in as `century`. -/
def normalize_expiry_date (century : String) (date_str : String) : Option String :=
  match strParts date_str with
  | [mm, dd, yyyy] =>
    let yyyy := resolve_century century yyyy
    some (zfill 2 mm ++ "/" ++ zfill 2 dd ++ "/" ++ yyyy)
  | [mm, yyyy] =>
    let yyyy := resolve_century century yyyy
    some (zfill 2 mm ++ "/" ++ yyyy)
  | _ => none

/-! ## Candidate aggregation: the three search tiers (app.py lines 53-106)

The Python code accumulates candidates in a `set()`; that is modelled
as a list with first-insertion deduplication (`insertCand`), which
fixes one concrete iteration order for the set. -/

/-- `candidates.add(s)` on the insertion-ordered model of the set. -/
def insertCand (l : List String) (s : String) : List String :=
  if s ∈ l then l else l ++ [s]

/-- The candidate strings contributed by the full-date regex on one
span: `f"{match[0]}/{match[1]}/{year}"` after the century fix. -/
def full_candidates (century : String) (cs : List Char) : List String :=
  (findallFull cs).map fun t =>
    t.1 ++ "/" ++ t.2.1 ++ "/" ++ resolve_century century t.2.2

/-- The candidate strings contributed by the month/year regex on one
span: `f"{match[0]}/{year}"` after the century fix. -/
def my_candidates (century : String) (cs : List Char) : List String :=
  (findallMY cs).map fun t => t.1 ++ "/" ++ resolve_century century t.2

/-- All candidates of one span, first pattern first (the code's
`for pattern in date_patterns` loop). -/
def span_candidates (century : String) (cs : List Char) : List String :=
  full_candidates century cs ++ my_candidates century cs

/-- Tier 1 (app.py lines 56-71): for every line containing an expiry
keyword, add all date matches found on that same line. -/
def tier1 (century : String) (lines : List String) : List String :=
  lines.foldl
    (fun acc line =>
      if keyword_search line then (span_candidates century line.toList).foldl insertCand acc
      else acc)
    []

/-- Tier 2 (app.py lines 72-91): for every keyword line that has a
following line, add all date matches found on that next line. -/
def tier2 (century : String) (lines : List String) : List String :=
  (lines.zip lines.tail).foldl
    (fun acc p =>
      if keyword_search p.1 then (span_candidates century p.2.toList).foldl insertCand acc
      else acc)
    []

/-- Tier 3 (app.py lines 92-106): date matches over the whole text. -/
def tier3 (century : String) (text : String) : List String :=
  (span_candidates century text.toList).foldl insertCand []

/-- The candidate set after the three-tier fallback (app.py lines
53-106): tier 2 runs only if tier 1 found nothing, tier 3 only if
both found nothing. -/
def gather_candidates (century : String) (text : String) : List String :=
  let lines := splitlines text
  let c1 := tier1 century lines
  if c1.isEmpty then
    let c2 := tier2 century lines
    if c2.isEmpty then tier3 century text else c2
  else c1

/-! ## Normalization pass and candidate ranking (app.py lines 107-127) -/

/-- The `normalized` set (app.py lines 108-112): normalize every
candidate, silently skipping any `None`. -/
def normalize_list (century : String) (cands : List String) : List String :=
  cands.foldl
    (fun acc c =>
      match normalize_expiry_date century c with
      | some n => insertCand acc n
      | none => acc)
    []

/-- `date_key` (app.py lines 115-122): `int(yyyy)*10000 + int(mm)*100
+ int(dd)`, with `dd = '01'` as the sorting fallback for month/year
dates. -/
def date_key (d : String) : Nat :=
  match strParts d with
  | [mm, dd, yyyy] => natOfStr yyyy * 10000 + natOfStr mm * 100 + natOfStr dd
  | [mm, yyyy] => natOfStr yyyy * 10000 + natOfStr mm * 100 + 1
  | _ => 0

/-- `len(d.split('/')) == 3`: the full-date test of app.py line 125. -/
def isFullDate (d : String) : Bool := (strParts d).length = 3

/-- Stable descending insertion by `date_key`: `x` goes in front of the
first element whose key is at most `x`'s. -/
def insertDesc (x : String) (l : List String) : List String :=
  match l with
  | [] => [x]
  | y :: ys => if date_key y ≤ date_key x then x :: y :: ys else y :: insertDesc x ys

/-- `sorted(normalized, key=date_key, reverse=True)` (app.py line 123).
Python's `sorted` is the stable descending sort by the key; insertion
sort from the right is that same function. -/
def sortDesc (l : List String) : List String := l.foldr insertDesc []

/-- The ranking step (app.py lines 113-127): return the first
descending-sorted candidate with three components if one exists,
otherwise the first sorted candidate; empty input gives `[]`. -/
def rank_candidates (normalized : List String) : List String :=
  let sorted := sortDesc normalized
  match sorted.find? isFullDate with
  | some d => [d]
  | none =>
    match sorted with
    | [] => []
    | d :: _ => [d]

/-- `extract_expiry_dates` (app.py lines 47-127), with the ambient
`str(datetime.now().year)[:2]` of lines 41 and 54 passed in as
`century`. -/
def extract_expiry_dates (century : String) (text : String) : List String :=
  rank_candidates (normalize_list century (gather_candidates century text))

/-- `extract_expiry_dates` as run when the wall clock reads year
`nowYear`: the source takes no date argument and reads
`datetime.now()` at call time (app.py lines 41, 54). -/
def extract_expiry_dates_at (nowYear : Nat) (text : String) : List String :=
  extract_expiry_dates (current_century nowYear) text

/-! ## The proleptic Gregorian calendar of Python `datetime`

`create_google_calendar_link` uses `datetime.strptime`, `timedelta`
subtraction and `strftime`.  `datetime` dates are days of the
proleptic Gregorian calendar, years 1-9999; they are modelled by their
ordinal (`date.toordinal`, with 0001-01-01 ↦ 1), and `- timedelta(days=30)`
is ordinal subtraction, raising `OverflowError` below ordinal 1. -/

/-- Gregorian leap year. -/
def isLeap (y : Nat) : Bool := y % 4 = 0 && (y % 100 ≠ 0 || y % 400 = 0)

/-- Days in month `m` of year `y`. -/
def daysInMonth (y m : Nat) : Nat :=
  if m = 2 then (if isLeap y then 29 else 28)
  else if m = 4 ∨ m = 6 ∨ m = 9 ∨ m = 11 then 30
  else 31

/-- Days in year `y` before month `m` (for `1 ≤ m ≤ 12`). -/
def daysBeforeMonth (y m : Nat) : Nat :=
  (match m with
   | 1 => 0 | 2 => 31 | 3 => 59 | 4 => 90 | 5 => 120 | 6 => 151
   | 7 => 181 | 8 => 212 | 9 => 243 | 10 => 273 | 11 => 304 | _ => 334)
  + (if 2 < m ∧ isLeap y then 1 else 0)

/-- Days before January 1 of year `y` (so ordinal of 0001-01-01 is 1). -/
def daysBeforeYear (y : Nat) : Nat :=
  let py := y - 1
  365 * py + py / 4 - py / 100 + py / 400

/-- `date(y, m, d).toordinal()`. -/
def toOrdinal (y m d : Nat) : Nat :=
  daysBeforeYear y + daysBeforeMonth y m + d

/-- Month and day from a 1-based day-of-year `doy` of year `y`. -/
def monthDayOf (y doy : Nat) : Nat × Nat × Nat :=
  let lp : Nat := if isLeap y then 1 else 0
  if doy ≤ 31 then (y, 1, doy)
  else if doy ≤ 59 + lp then (y, 2, doy - 31)
  else if doy ≤ 90 + lp then (y, 3, doy - (59 + lp))
  else if doy ≤ 120 + lp then (y, 4, doy - (90 + lp))
  else if doy ≤ 151 + lp then (y, 5, doy - (120 + lp))
  else if doy ≤ 181 + lp then (y, 6, doy - (151 + lp))
  else if doy ≤ 212 + lp then (y, 7, doy - (181 + lp))
  else if doy ≤ 243 + lp then (y, 8, doy - (212 + lp))
  else if doy ≤ 273 + lp then (y, 9, doy - (243 + lp))
  else if doy ≤ 304 + lp then (y, 10, doy - (273 + lp))
  else if doy ≤ 334 + lp then (y, 11, doy - (304 + lp))
  else (y, 12, doy - (334 + lp))

/-- `date.fromordinal(n)` for `n ≥ 1`: split off whole 400-, 100-,
4- and 1-year cycles, with the last day of a 4- or 400-year cycle
falling on December 31 of the cycle's last year. -/
def fromOrdinal (n : Nat) : Nat × Nat × Nat :=
  let n0 := n - 1
  let n400 := n0 / 146097
  let r1 := n0 % 146097
  let n100 := r1 / 36524
  let r2 := r1 % 36524
  let n4 := r2 / 1461
  let r3 := r2 % 1461
  let n1 := r3 / 365
  let k := r3 % 365
  let year := n400 * 400 + n100 * 100 + n4 * 4 + n1 + 1
  if n1 = 4 ∨ n100 = 4 then (year - 1, 12, 31)
  else monthDayOf year (k + 1)

/-! ## `datetime.strptime` with formats `"%m/%d/%Y"` and `"%m/%Y"`

CPython compiles `%m` to `(1[0-2]|0[1-9]|[1-9])`, `%d` to
`(3[01]|[12]\d|0[1-9]|[1-9])` and `%Y` to `(\d\d\d\d)`, matches the
whole string against the anchored regex (with backtracking across the
alternatives), and then builds the `datetime`, which raises for day
zero, a day beyond the month's length, or year zero. -/

/-- The `%m` alternatives that match a head of `cs`, in regex order,
each with its numeric value and the rest of the input. -/
def monthAlts : List Char → List (Nat × List Char)
  | '1' :: c :: r =>
    (if '0' ≤ c ∧ c ≤ '2' then [(10 + (c.toNat - 48), r)] else [])
      ++ [(1, c :: r)]
  | c :: r =>
    (if c = '0' then
        match r with
        | c2 :: r2 => if '1' ≤ c2 ∧ c2 ≤ '9' then [(c2.toNat - 48, r2)] else []
        | [] => []
      else [])
      ++ (if '1' ≤ c ∧ c ≤ '9' then [(c.toNat - 48, r)] else [])
  | [] => []

/-- The `%d` alternatives that match a head of `cs`, in regex order. -/
def dayAlts : List Char → List (Nat × List Char)
  | '3' :: c :: r =>
    (if c = '0' ∨ c = '1' then [(30 + (c.toNat - 48), r)] else [])
      ++ [(3, c :: r)]
  | '1' :: c :: r =>
    (if '0' ≤ c ∧ c ≤ '9' then [(10 + (c.toNat - 48), r)] else [])
      ++ [(1, c :: r)]
  | '2' :: c :: r =>
    (if '0' ≤ c ∧ c ≤ '9' then [(20 + (c.toNat - 48), r)] else [])
      ++ [(2, c :: r)]
  | c :: r =>
    (if c = '0' then
        match r with
        | c2 :: r2 => if '1' ≤ c2 ∧ c2 ≤ '9' then [(c2.toNat - 48, r2)] else []
        | [] => []
      else [])
      ++ (if '1' ≤ c ∧ c ≤ '9' then [(c.toNat - 48, r)] else [])
  | [] => []

/-- `%Y`: exactly four digits. -/
def year4 : List Char → Option (Nat × List Char)
  | a :: b :: c :: d :: r =>
    if a.isDigit ∧ b.isDigit ∧ c.isDigit ∧ d.isDigit then
      some ((a.toNat - 48) * 1000 + (b.toNat - 48) * 100 + (c.toNat - 48) * 10
        + (d.toNat - 48), r)
    else none
  | _ => none

/-- After a matched `%d` of value `d`: `/` then `%Y` then end of string. -/
def mdyDayTail (m : Nat) (dr : Nat × List Char) : Option (Nat × Nat × Nat) :=
  match dr.2 with
  | '/' :: r4 =>
    match year4 r4 with
    | some (y, []) => some (y, m, dr.1)
    | _ => none
  | _ => none

/-- After a matched `%m` of value `m`: `/` then `%d` then `/` then `%Y`
then end of string. -/
def mdyTail (mr : Nat × List Char) : Option (Nat × Nat × Nat) :=
  match mr.2 with
  | '/' :: r2 => (dayAlts r2).findSome? (mdyDayTail mr.1)
  | _ => none

/-- The anchored whole-string regex of `strptime(s, "%m/%d/%Y")`:
first successful parse in backtracking order. -/
def regex_mdY (cs : List Char) : Option (Nat × Nat × Nat) :=
  (monthAlts cs).findSome? mdyTail

/-- After a matched `%m` of value `m`: `/` then `%Y` then end of string
(`datetime` day defaults to 1). -/
def myTail (mr : Nat × List Char) : Option (Nat × Nat × Nat) :=
  match mr.2 with
  | '/' :: r2 =>
    match year4 r2 with
    | some (y, []) => some (y, mr.1, 1)
    | _ => none
  | _ => none

/-- The anchored whole-string regex of `strptime(s, "%m/%Y")`. -/
def regex_mY (cs : List Char) : Option (Nat × Nat × Nat) :=
  (monthAlts cs).findSome? myTail

/-- The `datetime(...)` range check performed after the regex match:
`MINYEAR ≤ year` and the day must exist in the month (the regex
already forces `1 ≤ month ≤ 12`, `1 ≤ day ≤ 31`, `year ≤ 9999`). -/
def validateDate (t : Nat × Nat × Nat) : Option (Nat × Nat × Nat) :=
  if 1 ≤ t.1 ∧ t.2.2 ≤ daysInMonth t.1 t.2.1 then some t else none

/-- The `try` block of app.py lines 132-138: parse as `%m/%d/%Y` when
the string has three `'/'`-separated parts, else as `%m/%Y`; `None`
on `ValueError`. -/
def parse_expiry (s : String) : Option (Nat × Nat × Nat) :=
  if (strParts s).length = 3 then (regex_mdY s.toList).bind validateDate
  else (regex_mY s.toList).bind validateDate

/-! ## URL assembly (app.py lines 139-145) -/

/-- Uppercase hex digit. -/
def hexDigitCh (n : Nat) : Char :=
  if n < 10 then Char.ofNat (48 + n) else Char.ofNat (55 + n)

/-- Two-digit uppercase hex of a byte. -/
def hex2 (b : Nat) : String := ⟨[hexDigitCh (b / 16), hexDigitCh (b % 16)]⟩

/-- UTF-8 bytes of a code point. -/
def utf8Bytes (n : Nat) : List Nat :=
  if n < 128 then [n]
  else if n < 2048 then [192 + n / 64, 128 + n % 64]
  else if n < 65536 then [224 + n / 4096, 128 + n / 64 % 64, 128 + n % 64]
  else [240 + n / 262144, 128 + n / 4096 % 64, 128 + n / 64 % 64, 128 + n % 64]

/-- `urllib.parse.quote`'s never-quoted characters (ASCII alphanumerics
and `'_.-~'`) plus the default `safe='/'`. -/
def quoteSafe (c : Char) : Bool :=
  ('A' ≤ c && c ≤ 'Z') || ('a' ≤ c && c ≤ 'z') || ('0' ≤ c && c ≤ '9')
    || c = '_' || c = '.' || c = '-' || c = '~' || c = '/'

/-- `urllib.parse.quote(s)`: percent-encode every unsafe character's
UTF-8 bytes, uppercase hex. -/
def quote (s : String) : String :=
  ⟨s.toList.foldr
    (fun c acc =>
      if quoteSafe c then c :: acc
      else (utf8Bytes c.toNat).foldr (fun b a => '%' :: (hex2 b).toList ++ a) acc)
    []⟩

/-- `strftime("%Y%m%d")`: month and day zero-padded to two digits;
`%Y` renders the year unpadded (glibc behaviour, identical for the
four-digit years of every claim). -/
def fmtYmd (y m d : Nat) : String :=
  Nat.repr y ++ zfill 2 (Nat.repr m) ++ zfill 2 (Nat.repr d)

/-- The f-string of app.py line 144, given the two formatted range
endpoints and the raw expiry string. -/
def calendarUrl (start endS details_src : String) : String :=
  "https://calendar.google.com/calendar/render?action=TEMPLATE&text="
    ++ quote "Document Expiry Reminder"
    ++ "&dates=" ++ start ++ "/" ++ endS
    ++ "&details=" ++ quote ("Your document expires on " ++ details_src ++ ". Renew soon!")

/-- `create_google_calendar_link` (app.py lines 129-145).
`Except.error ()` models an uncaught exception: the 30-day
subtraction of line 139 sits outside the `try` of lines 132-138 and
raises `OverflowError` when the result would precede 0001-01-01.
Since the parsed `datetime` is at midnight, `reminder + timedelta(hours=1)`
is 01:00 of the same day, so both `%Y%m%d` endpoints of line 140-141
render the reminder date. -/
def create_google_calendar_link (expiry_date_str : String) : Except Unit (Option String) :=
  match parse_expiry expiry_date_str with
  | none => Except.ok none
  | some (y, m, d) =>
    let o := toOrdinal y m d
    if o ≤ 30 then Except.error ()
    else
      let t := fromOrdinal (o - 30)
      let start := fmtYmd t.1 t.2.1 t.2.2
      Except.ok (some (calendarUrl start start expiry_date_str))

/-- Whether the link builder raised (modelled) rather than returned. -/
def linkRaises (r : Except Unit (Option String)) : Bool :=
  match r with
  | Except.error _ => true
  | _ => false

/-- Whether the link builder returned a URL. -/
def linkIsSome (r : Except Unit (Option String)) : Bool :=
  match r with
  | Except.ok (some _) => true
  | _ => false

/-- Whether the link builder returned a URL containing `pat`. -/
def linkContains (r : Except Unit (Option String)) (pat : String) : Bool :=
  match r with
  | Except.ok (some u) => strContains u pat
  | _ => false

/-! ## Shape predicates used to state the claims -/

/-- All characters are decimal digits. -/
def isDigitStr (s : String) : Bool := s.toList.all Char.isDigit

/-- A month token as captured by `(0[1-9]|1[0-2])`. -/
def isMonthTok (s : String) : Bool :=
  match s.toList with
  | ['0', c] => decide ('1' ≤ c) && decide (c ≤ '9')
  | ['1', c] => decide ('0' ≤ c) && decide (c ≤ '2')
  | _ => false

/-- A day token as captured by `(0[1-9]|[12][0-9]|3[01])`. -/
def isDayTok (s : String) : Bool :=
  match s.toList with
  | ['0', c] => decide ('1' ≤ c) && decide (c ≤ '9')
  | ['1', c] => decide ('0' ≤ c) && decide (c ≤ '9')
  | ['2', c] => decide ('0' ≤ c) && decide (c ≤ '9')
  | ['3', c] => c = '0' || c = '1'
  | _ => false

/-- The spec's `NormalizedDate` shape, as the claims state it:
`MM/DD/YYYY` or `MM/YYYY`, zero-padded components, year exactly four
digits. -/
def specNormalizedDate (s : String) : Bool :=
  match strParts s with
  | [mm, dd, yyyy] =>
    mm.length == 2 && dd.length == 2 && yyyy.length == 4
      && isDigitStr mm && isDigitStr dd && isDigitStr yyyy
  | [mm, yyyy] =>
    mm.length == 2 && yyyy.length == 4 && isDigitStr mm && isDigitStr yyyy
  | _ => false

/-- The shape the extractor actually guarantees for its output: month
(and day) are the zero-padded two-character regex tokens, and the year
token has three or four digit characters (a two-digit token is
century-expanded to four, a three-digit token passes through). -/
def extractedShape (s : String) : Bool :=
  match strParts s with
  | [mm, dd, yyyy] =>
    isMonthTok mm && isDayTok dd && isDigitStr yyyy
      && decide (3 ≤ yyyy.length) && decide (yyyy.length ≤ 4)
  | [mm, yyyy] =>
    isMonthTok mm && isDigitStr yyyy
      && decide (3 ≤ yyyy.length) && decide (yyyy.length ≤ 4)
  | _ => false

/-- Two half-open spans intersect. -/
def spansOverlap (a b : Nat × Nat) : Prop := a.1 < b.2 ∧ b.1 < a.2

/-- A calendar-valid year/month/day triple (year at least 1). -/
def ValidYMD (t : Nat × Nat × Nat) : Prop :=
  1 ≤ t.1 ∧ 1 ≤ t.2.1 ∧ t.2.1 ≤ 12 ∧ 1 ≤ t.2.2 ∧ t.2.2 ≤ daysInMonth t.1 t.2.1

/-- Spans in the list are in scan order: each starts no earlier than
`p`, ends after it starts, and the next one starts no earlier than its
end. -/
def SpanChain {α : Type} : Nat → List (Nat × Nat × α) → Prop
  | _, [] => True
  | p, t :: rest => p ≤ t.1 ∧ t.1 < t.2.1 ∧ SpanChain t.2.1 rest

/-! ## Character lemmas -/

theorem char_toNat_le_of_le {a b : Char} (h : a ≤ b) : a.toNat ≤ b.toNat := by
  simpa [Char.le_def, UInt32.le_def, BitVec.le_def, Char.toNat, UInt32.toNat] using h

theorem isDigit_of_le_le {c : Char} (h1 : '0' ≤ c) (h2 : c ≤ '9') : c.isDigit = true := by
  have n1 := char_toNat_le_of_le h1
  have n2 := char_toNat_le_of_le h2
  have e0 : ('0' : Char).toNat = 48 := rfl
  have e9 : ('9' : Char).toNat = 57 := rfl
  rw [e0] at n1; rw [e9] at n2
  simp only [Char.isDigit, Bool.and_eq_true, decide_eq_true_eq, GE.ge, Char.le_def,
    UInt32.le_def, BitVec.le_def] at *
  exact ⟨n1, n2⟩

theorem digit_ne_slash {c : Char} (h : c.isDigit = true) : c ≠ '/' := by
  intro hc; subst hc; simp [Char.isDigit] at h

theorem monthTok_shape {m : String} (h : isMonthTok m = true) :
    isDigitStr m = true ∧ m.length = 2 := by
  rcases m with ⟨l⟩
  unfold isMonthTok at h
  dsimp only [String.toList] at h
  split at h
  · next c =>
    simp only [Bool.and_eq_true, decide_eq_true_eq] at h
    constructor
    · simp [isDigitStr, String.toList]
      exact isDigit_of_le_le (le_trans (by decide) h.1) h.2
    · rfl
  · next c =>
    simp only [Bool.and_eq_true, decide_eq_true_eq] at h
    constructor
    · simp [isDigitStr, String.toList]
      exact isDigit_of_le_le h.1 (le_trans h.2 (by decide))
    · rfl
  · simp at h

theorem dayTok_shape {d : String} (h : isDayTok d = true) :
    isDigitStr d = true ∧ d.length = 2 := by
  rcases d with ⟨l⟩
  unfold isDayTok at h
  dsimp only [String.toList] at h
  split at h
  · next c =>
    simp only [Bool.and_eq_true, decide_eq_true_eq] at h
    constructor
    · simp [isDigitStr, String.toList]
      exact isDigit_of_le_le (le_trans (by decide) h.1) h.2
    · rfl
  · next c =>
    simp only [Bool.and_eq_true, decide_eq_true_eq] at h
    constructor
    · simp [isDigitStr, String.toList]
      exact isDigit_of_le_le h.1 h.2
    · rfl
  · next c =>
    simp only [Bool.and_eq_true, decide_eq_true_eq] at h
    constructor
    · simp [isDigitStr, String.toList]
      exact isDigit_of_le_le (le_trans (by decide) h.1) h.2
    · rfl
  · next c =>
    simp only [Bool.or_eq_true, decide_eq_true_eq] at h
    constructor
    · simp [isDigitStr, String.toList]
      rcases h with h | h <;> subst h <;> decide
    · rfl
  · simp at h

/-! ## Structure of `splitSlash` -/

theorem splitSlash_ne_nil (l : List Char) : splitSlash l ≠ [] := by
  cases l with
  | nil => simp [splitSlash]
  | cons c rest =>
    unfold splitSlash
    by_cases hc : c = '/'
    · simp [hc]
    · rw [if_neg hc]
      split <;> simp

theorem splitSlash_no_slash {l : List Char} (h : '/' ∉ l) : splitSlash l = [l] := by
  induction l with
  | nil => rfl
  | cons c rest ih =>
    have hc : c ≠ '/' := fun e => h (e ▸ List.mem_cons_self c rest)
    have hr : '/' ∉ rest := fun m => h (List.mem_cons_of_mem _ m)
    unfold splitSlash
    rw [if_neg hc, ih hr]

theorem splitSlash_append {a : List Char} (r : List Char) (h : '/' ∉ a) :
    splitSlash (a ++ '/' :: r) = a :: splitSlash r := by
  induction a with
  | nil =>
    simp only [List.nil_append]
    rw [splitSlash]
    simp
  | cons c t ih =>
    have hc : c ≠ '/' := fun e => h (e ▸ List.mem_cons_self c t)
    have ht : '/' ∉ t := fun m => h (List.mem_cons_of_mem _ m)
    simp only [List.cons_append]
    rw [splitSlash, if_neg hc, ih ht]

theorem splitSlash_cons_elim {l p : List Char} {ps : List (List Char)}
    (h : splitSlash l = p :: ps) :
    (ps = [] ∧ l = p) ∨ ∃ r, l = p ++ '/' :: r ∧ splitSlash r = ps := by
  induction l generalizing p ps with
  | nil =>
    simp only [splitSlash] at h
    injection h with h1 h2
    subst h1; subst h2
    exact Or.inl ⟨rfl, rfl⟩
  | cons c rest ih =>
    unfold splitSlash at h
    by_cases hc : c = '/'
    · rw [if_pos hc] at h
      injection h with h1 h2
      subst h1
      exact Or.inr ⟨rest, by simp [hc], h2⟩
    · rw [if_neg hc] at h
      cases hq : splitSlash rest with
      | nil => exact absurd hq (splitSlash_ne_nil rest)
      | cons q qs =>
        rw [hq] at h
        injection h with h1 h2
        subst h2
        rcases ih hq with ⟨hnil, hrq⟩ | ⟨r, hrq, hsr⟩
        · subst hnil
          exact Or.inl ⟨rfl, by rw [← h1, hrq]⟩
        · exact Or.inr ⟨r, by rw [← h1, hrq]; rfl, hsr⟩

theorem strParts_two {s a b : String} (h : strParts s = [a, b]) :
    s = a ++ "/" ++ b := by
  unfold strParts at h
  cases hq : splitSlash s.data with
  | nil => exact absurd hq (splitSlash_ne_nil _)
  | cons q qs =>
    rw [hq] at h
    cases qs with
    | nil => simp at h
    | cons q2 qs2 =>
      cases qs2 with
      | cons q3 qs3 => simp at h
      | nil =>
        simp only [List.map_cons, List.map_nil, List.cons.injEq, and_true] at h
        obtain ⟨ha, hb⟩ := h
        rcases splitSlash_cons_elim hq with ⟨hnil, _⟩ | ⟨r, hrq, hsr⟩
        · simp at hnil
        · rcases splitSlash_cons_elim hsr with ⟨_, hre⟩ | ⟨r2, hrq2, hsr2⟩
          · apply String.ext
            rw [hrq, hre]
            rw [← ha, ← hb]
            simp [String.data_append]
          · exfalso
            exact splitSlash_ne_nil r2 hsr2

theorem strParts_three {s a b c : String} (h : strParts s = [a, b, c]) :
    s = a ++ "/" ++ b ++ "/" ++ c := by
  unfold strParts at h
  cases hq : splitSlash s.data with
  | nil => exact absurd hq (splitSlash_ne_nil _)
  | cons q qs =>
    rw [hq] at h
    cases qs with
    | nil => simp at h
    | cons q2 qs2 =>
      cases qs2 with
      | nil => simp at h
      | cons q3 qs3 =>
        cases qs3 with
        | cons q4 qs4 => simp at h
        | nil =>
          simp only [List.map_cons, List.map_nil, List.cons.injEq, and_true] at h
          obtain ⟨ha, hb, hc⟩ := h
          rcases splitSlash_cons_elim hq with ⟨hnil, _⟩ | ⟨r, hrq, hsr⟩
          · simp at hnil
          · rcases splitSlash_cons_elim hsr with ⟨hnil2, _⟩ | ⟨r2, hrq2, hsr2⟩
            · simp at hnil2
            · rcases splitSlash_cons_elim hsr2 with ⟨_, hre⟩ | ⟨r3, _, hsr3⟩
              · apply String.ext
                rw [hrq, hrq2, hre]
                rw [← ha, ← hb, ← hc]
                simp [String.data_append]
              · exact absurd hsr3 (splitSlash_ne_nil r3)

/-! ## Shapes of regex matches -/

theorem matchMonth_tok {cs : List Char} {m : String} {r : List Char}
    (h : matchMonth cs = some (m, r)) : isMonthTok m = true := by
  unfold matchMonth at h
  split at h
  · next c rest =>
    split at h
    · next hc =>
      simp only [Option.some.injEq, Prod.mk.injEq] at h
      obtain ⟨hm, _⟩ := h
      subst hm
      simp [isMonthTok, hc.1, hc.2]
    · exact absurd h (by simp)
  · next c rest =>
    split at h
    · next hc =>
      simp only [Option.some.injEq, Prod.mk.injEq] at h
      obtain ⟨hm, _⟩ := h
      subst hm
      simp [isMonthTok, hc.1, hc.2]
    · exact absurd h (by simp)
  · exact absurd h (by simp)

theorem matchDay_tok {cs : List Char} {d : String} {r : List Char}
    (h : matchDay cs = some (d, r)) : isDayTok d = true := by
  unfold matchDay at h
  split at h
  · next c rest =>
    split at h
    · next hc =>
      simp only [Option.some.injEq, Prod.mk.injEq] at h
      obtain ⟨hm, _⟩ := h
      subst hm
      simp [isDayTok, hc.1, hc.2]
    · exact absurd h (by simp)
  · next c rest =>
    split at h
    · next hc =>
      simp only [Option.some.injEq, Prod.mk.injEq] at h
      obtain ⟨hm, _⟩ := h
      subst hm
      simp [isDayTok, hc.1, hc.2]
    · exact absurd h (by simp)
  · next c rest =>
    split at h
    · next hc =>
      simp only [Option.some.injEq, Prod.mk.injEq] at h
      obtain ⟨hm, _⟩ := h
      subst hm
      simp [isDayTok, hc.1, hc.2]
    · exact absurd h (by simp)
  · next c rest =>
    split at h
    · next hc =>
      simp only [Option.some.injEq, Prod.mk.injEq] at h
      obtain ⟨hm, _⟩ := h
      subst hm
      rcases hc with hc | hc <;> (subst hc; simp [isDayTok])
    · exact absurd h (by simp)
  · exact absurd h (by simp)

theorem matchYear_shape {cs : List Char} {y : String} {r : List Char}
    (h : matchYear cs = some (y, r)) :
    isDigitStr y = true ∧ 2 ≤ y.length ∧ y.length ≤ 4 := by
  unfold matchYear at h
  simp only [] at h
  split at h
  · next hle =>
    simp only [Option.some.injEq, Prod.mk.injEq] at h
    obtain ⟨hy, _⟩ := h
    subst hy
    refine ⟨?_, hle, ?_⟩
    · unfold isDigitStr
      simp only [String.toList]
      rw [List.all_eq_true]
      intro c hc
      exact List.mem_takeWhile_imp hc
    · calc ((cs.take 4).takeWhile Char.isDigit).length
          ≤ (cs.take 4).length := (List.takeWhile_sublist _).length_le
        _ ≤ 4 := by simp [List.length_take]
  · exact absurd h (by simp)

theorem matchFull_shape {cs : List Char} {m d y : String} {len : Nat}
    (h : matchFull cs = some ((m, d, y), len)) :
    isMonthTok m = true ∧ isDayTok d = true ∧ isDigitStr y = true
      ∧ 2 ≤ y.length ∧ y.length ≤ 4 ∧ len = 6 + y.length := by
  unfold matchFull at h
  cases hm : matchMonth cs with
  | none => rw [hm] at h; exact absurd h (by simp)
  | some mr =>
    obtain ⟨m1, r1⟩ := mr
    rw [hm] at h
    dsimp only at h
    cases hs1 : matchSep r1 with
    | none => rw [hs1] at h; exact absurd h (by simp)
    | some r2 =>
      rw [hs1] at h
      dsimp only at h
      cases hd : matchDay r2 with
      | none => rw [hd] at h; exact absurd h (by simp)
      | some dr =>
        obtain ⟨d1, r3⟩ := dr
        rw [hd] at h
        dsimp only at h
        cases hs2 : matchSep r3 with
        | none => rw [hs2] at h; exact absurd h (by simp)
        | some r4 =>
          rw [hs2] at h
          dsimp only at h
          cases hy : matchYear r4 with
          | none => rw [hy] at h; exact absurd h (by simp)
          | some yr =>
            obtain ⟨y1, r5⟩ := yr
            rw [hy] at h
            dsimp only at h
            simp only [Option.some.injEq, Prod.mk.injEq] at h
            obtain ⟨⟨e1, e2, e3⟩, e4⟩ := h
            subst e1; subst e2; subst e3; subst e4
            obtain ⟨hdig, h2, h4⟩ := matchYear_shape hy
            exact ⟨matchMonth_tok hm, matchDay_tok hd, hdig, h2, h4, rfl⟩

theorem matchMY_shape {cs : List Char} {m y : String} {len : Nat}
    (h : matchMY cs = some ((m, y), len)) :
    isMonthTok m = true ∧ isDigitStr y = true
      ∧ 2 ≤ y.length ∧ y.length ≤ 4 ∧ len = 3 + y.length := by
  unfold matchMY at h
  cases hm : matchMonth cs with
  | none => rw [hm] at h; exact absurd h (by simp)
  | some mr =>
    obtain ⟨m1, r1⟩ := mr
    rw [hm] at h
    dsimp only at h
    cases hs1 : matchSep r1 with
    | none => rw [hs1] at h; exact absurd h (by simp)
    | some r2 =>
      rw [hs1] at h
      dsimp only at h
      cases hy : matchYear r2 with
      | none => rw [hy] at h; exact absurd h (by simp)
      | some yr =>
        obtain ⟨y1, r5⟩ := yr
        rw [hy] at h
        dsimp only at h
        simp only [Option.some.injEq, Prod.mk.injEq] at h
        obtain ⟨⟨e1, e2⟩, e4⟩ := h
        subst e1; subst e2; subst e4
        obtain ⟨hdig, h2, h4⟩ := matchYear_shape hy
        exact ⟨matchMonth_tok hm, hdig, h2, h4, rfl⟩

/-! ## The scanner: membership shapes and span structure -/

theorem scanAux_mem {α : Type} (P : α → Prop) {m : List Char → Option (α × Nat)}
    (hm : ∀ cs g len, m cs = some (g, len) → P g) :
    ∀ fuel cs pos t, t ∈ scanAux m fuel cs pos → P t.2.2 := by
  intro fuel
  induction fuel with
  | zero => intro cs pos t ht; simp [scanAux] at ht
  | succ fuel ih =>
    intro cs pos t ht
    cases cs with
    | nil => simp [scanAux] at ht
    | cons c rest =>
      rw [scanAux] at ht
      cases hmc : m (c :: rest) with
      | some gl =>
        obtain ⟨g, len⟩ := gl
        rw [hmc] at ht
        rcases List.mem_cons.mp ht with rfl | ht'
        · exact hm _ _ _ hmc
        · exact ih _ _ _ ht'
      | none =>
        rw [hmc] at ht
        exact ih _ _ _ ht

theorem spanChain_mono {α : Type} {p q : Nat} {l : List (Nat × Nat × α)}
    (hpq : p ≤ q) (h : SpanChain q l) : SpanChain p l := by
  cases l with
  | nil => trivial
  | cons t rest => exact ⟨le_trans hpq h.1, h.2.1, h.2.2⟩

theorem scanAux_chain {α : Type} {m : List Char → Option (α × Nat)}
    (hm : ∀ cs g len, m cs = some (g, len) → 1 ≤ len) :
    ∀ fuel cs pos, SpanChain pos (scanAux m fuel cs pos) := by
  intro fuel
  induction fuel with
  | zero => intro cs pos; simp [scanAux, SpanChain]
  | succ fuel ih =>
    intro cs pos
    cases cs with
    | nil => simp [scanAux, SpanChain]
    | cons c rest =>
      rw [scanAux]
      cases hmc : m (c :: rest) with
      | some gl =>
        obtain ⟨g, len⟩ := gl
        refine ⟨le_refl _, ?_, ih _ _⟩
        show pos < pos + len
        have := hm _ _ _ hmc
        omega
      | none =>
        exact spanChain_mono (by omega) (ih _ _)

theorem spanChain_ge {α : Type} :
    ∀ {p : Nat} {l : List (Nat × Nat × α)}, SpanChain p l → ∀ t ∈ l, p ≤ t.1 := by
  intro p l
  induction l generalizing p with
  | nil => intro _ t ht; simp at ht
  | cons s rest ih =>
    intro h t ht
    obtain ⟨h1, h2, h3⟩ := h
    rcases List.mem_cons.mp ht with rfl | ht'
    · exact h1
    · exact le_trans (le_trans h1 (le_of_lt h2)) (ih h3 t ht')

theorem spanChain_pairwise {α : Type} :
    ∀ {p : Nat} {l : List (Nat × Nat × α)}, SpanChain p l →
      List.Pairwise (fun a b => a.2.1 ≤ b.1) l := by
  intro p l
  induction l generalizing p with
  | nil => intro _; exact List.Pairwise.nil
  | cons s rest ih =>
    intro h
    obtain ⟨_, _, h3⟩ := h
    exact List.Pairwise.cons (fun t ht => spanChain_ge h3 t ht) (ih h3)

/-! ## The candidate set model -/

theorem mem_insertCand {l : List String} {s a : String} :
    a ∈ insertCand l s ↔ a ∈ l ∨ a = s := by
  unfold insertCand
  split
  · next hs =>
    constructor
    · exact Or.inl
    · rintro (h | rfl)
      · exact h
      · exact hs
  · simp [List.mem_append]

theorem mem_foldl_insertCand {xs : List String} :
    ∀ {init : List String} {a : String},
      a ∈ xs.foldl insertCand init ↔ a ∈ init ∨ a ∈ xs := by
  induction xs with
  | nil => simp
  | cons x xs ih =>
    intro init a
    simp only [List.foldl_cons]
    rw [ih, mem_insertCand, List.mem_cons]
    tauto

/-! ## The stable descending sort -/

theorem mem_insertDesc {x a : String} {l : List String} :
    a ∈ insertDesc x l ↔ a = x ∨ a ∈ l := by
  induction l with
  | nil => simp [insertDesc]
  | cons y ys ih =>
    unfold insertDesc
    split
    · simp
    · rw [List.mem_cons, ih, List.mem_cons]
      tauto

theorem mem_sortDesc {l : List String} {a : String} : a ∈ sortDesc l ↔ a ∈ l := by
  induction l with
  | nil => simp [sortDesc]
  | cons x xs ih =>
    unfold sortDesc at *
    simp only [List.foldr_cons]
    rw [mem_insertDesc, ih, List.mem_cons]

theorem pairwise_insertDesc {x : String} {l : List String}
    (h : List.Pairwise (fun a b => date_key b ≤ date_key a) l) :
    List.Pairwise (fun a b => date_key b ≤ date_key a) (insertDesc x l) := by
  induction l with
  | nil => simp [insertDesc]
  | cons y ys ih =>
    unfold insertDesc
    split
    · next hle =>
      refine List.Pairwise.cons ?_ h
      intro z hz
      rcases List.mem_cons.mp hz with rfl | hz'
      · exact hle
      · exact le_trans (List.rel_of_pairwise_cons h hz') hle
    · next hgt =>
      refine List.Pairwise.cons ?_ (ih (List.Pairwise.of_cons h))
      intro z hz
      rcases mem_insertDesc.mp hz with rfl | hz'
      · omega
      · exact List.rel_of_pairwise_cons h hz'

theorem pairwise_sortDesc (l : List String) :
    List.Pairwise (fun a b => date_key b ≤ date_key a) (sortDesc l) := by
  induction l with
  | nil => simp [sortDesc]
  | cons x xs ih =>
    unfold sortDesc at *
    simp only [List.foldr_cons]
    exact pairwise_insertDesc ih

theorem find?_isFull_some {s : List String} {d : String}
    (hs : List.Pairwise (fun a b => date_key b ≤ date_key a) s)
    (h : s.find? isFullDate = some d) :
    d ∈ s ∧ isFullDate d = true
      ∧ ∀ e ∈ s, isFullDate e = true → date_key e ≤ date_key d := by
  induction s with
  | nil => simp at h
  | cons a t ih =>
    rw [List.find?_cons] at h
    cases hfa : isFullDate a with
    | true =>
      rw [hfa] at h
      simp only [Option.some.injEq] at h
      subst h
      refine ⟨List.mem_cons_self _ _, hfa, ?_⟩
      intro e he _
      rcases List.mem_cons.mp he with rfl | he'
      · exact le_refl _
      · exact List.rel_of_pairwise_cons hs he'
    | false =>
      rw [hfa] at h
      obtain ⟨hmem, hfull, hmax⟩ := ih (List.Pairwise.of_cons hs) h
      refine ⟨List.mem_cons_of_mem _ hmem, hfull, ?_⟩
      intro e he hfe
      rcases List.mem_cons.mp he with rfl | he'
      · rw [hfa] at hfe; exact absurd hfe (by simp)
      · exact hmax e he' hfe

theorem rank_spec {l : List String} (h : l ≠ []) :
    ∃ d, rank_candidates l = [d] ∧ d ∈ l ∧
      ((∃ e ∈ l, isFullDate e = true) →
        isFullDate d = true ∧ ∀ e ∈ l, isFullDate e = true → date_key e ≤ date_key d) ∧
      ((∀ e ∈ l, isFullDate e = false) → ∀ e ∈ l, date_key e ≤ date_key d) := by
  cases hf : (sortDesc l).find? isFullDate with
  | some d =>
    have hr : rank_candidates l = [d] := by
      unfold rank_candidates
      simp only []
      rw [hf]
    obtain ⟨hmem, hfull, hmax⟩ := find?_isFull_some (pairwise_sortDesc l) hf
    refine ⟨d, hr, mem_sortDesc.mp hmem, ?_, ?_⟩
    · intro _
      exact ⟨hfull, fun e he hfe => hmax e (mem_sortDesc.mpr he) hfe⟩
    · intro hnone
      exact absurd hfull (by simp [hnone d (mem_sortDesc.mp hmem)])
  | none =>
    have hnofull : ∀ e ∈ sortDesc l, isFullDate e = false := by
      intro e he
      have := List.find?_eq_none.mp hf e he
      simpa using this
    cases hs : sortDesc l with
    | nil =>
      exfalso
      rcases List.exists_mem_of_ne_nil l h with ⟨a, ha⟩
      have : a ∈ sortDesc l := mem_sortDesc.mpr ha
      rw [hs] at this
      simp at this
    | cons d t =>
      have hr : rank_candidates l = [d] := by
        unfold rank_candidates
        simp only []
        rw [hf, hs]
      refine ⟨d, hr, ?_, ?_, ?_⟩
      · have : d ∈ sortDesc l := by rw [hs]; exact List.mem_cons_self _ _
        exact mem_sortDesc.mp this
      · intro ⟨e, he, hfe⟩
        have : e ∈ sortDesc l := mem_sortDesc.mpr he
        rw [hnofull e this] at hfe
        exact absurd hfe (by simp)
      · intro _ e he
        have hes : e ∈ sortDesc l := mem_sortDesc.mpr he
        rw [hs] at hes
        have hp := pairwise_sortDesc l
        rw [hs] at hp
        rcases List.mem_cons.mp hes with rfl | he'
        · exact le_refl _
        · exact List.rel_of_pairwise_cons hp he'

theorem rank_length (nl : List String) : (rank_candidates nl).length ≤ 1 := by
  unfold rank_candidates
  simp only []
  cases (sortDesc nl).find? isFullDate with
  | some d => simp
  | none =>
    cases sortDesc nl with
    | nil => simp
    | cons d t => simp

theorem rank_mem {nl : List String} {d : String} (h : d ∈ rank_candidates nl) : d ∈ nl := by
  unfold rank_candidates at h
  simp only [] at h
  cases hf : (sortDesc nl).find? isFullDate with
  | some e =>
    rw [hf] at h
    simp only [List.mem_singleton] at h
    subst h
    exact mem_sortDesc.mp (List.mem_of_find?_eq_some hf)
  | none =>
    rw [hf] at h
    cases hs : sortDesc nl with
    | nil => rw [hs] at h; simp at h
    | cons e t =>
      rw [hs] at h
      simp only [List.mem_singleton] at h
      subst h
      exact mem_sortDesc.mp (by rw [hs]; exact List.mem_cons_self _ _)

/-! ## Candidate strings normalize to themselves -/

theorem zfill_of_le {w : Nat} {s : String} (h : w ≤ s.length) : zfill w s = s := by
  unfold zfill
  rw [if_pos h]

theorem resolve_century_of_ne {c y : String} (h : y.length ≠ 2) :
    resolve_century c y = y := by
  unfold resolve_century
  rw [if_neg h]

theorem digitStr_append {a b : String} (ha : isDigitStr a = true)
    (hb : isDigitStr b = true) : isDigitStr (a ++ b) = true := by
  unfold isDigitStr at *
  simp only [String.toList, String.data_append, List.all_append]
  simp only [String.toList] at ha hb
  rw [ha, hb]
  rfl

theorem resolve_century_shape {century y : String} (hc2 : century.length = 2)
    (hcd : isDigitStr century = true) (hyd : isDigitStr y = true)
    (h2 : 2 ≤ y.length) (h4 : y.length ≤ 4) :
    isDigitStr (resolve_century century y) = true
      ∧ 3 ≤ (resolve_century century y).length
      ∧ (resolve_century century y).length ≤ 4 := by
  unfold resolve_century
  split
  · next he =>
    refine ⟨digitStr_append hcd hyd, ?_, ?_⟩ <;>
      simp [String.length_append, hc2, he]
  · next he => exact ⟨hyd, by omega, h4⟩

theorem no_slash_of_digitStr {s : String} (h : isDigitStr s = true) : '/' ∉ s.data := by
  intro hmem
  unfold isDigitStr at h
  simp only [String.toList, List.all_eq_true] at h
  exact absurd rfl (digit_ne_slash (h _ hmem))

theorem strParts_build2 {m y : String} (hm : '/' ∉ m.data) (hy : '/' ∉ y.data) :
    strParts (m ++ "/" ++ y) = [m, y] := by
  unfold strParts
  have hd : (m ++ "/" ++ y).data = m.data ++ '/' :: y.data := by
    simp [String.data_append]
  rw [hd, splitSlash_append _ hm, splitSlash_no_slash hy]
  simp

theorem strParts_build3 {m d y : String} (hm : '/' ∉ m.data) (hd : '/' ∉ d.data)
    (hy : '/' ∉ y.data) :
    strParts (m ++ "/" ++ d ++ "/" ++ y) = [m, d, y] := by
  unfold strParts
  have he : (m ++ "/" ++ d ++ "/" ++ y).data
      = m.data ++ '/' :: (d.data ++ '/' :: y.data) := by
    simp [String.data_append]
  rw [he, splitSlash_append _ hm, splitSlash_append _ hd, splitSlash_no_slash hy]
  simp

theorem findallFull_shape {cs : List Char} {g : String × String × String}
    (hg : g ∈ findallFull cs) :
    isMonthTok g.1 = true ∧ isDayTok g.2.1 = true ∧ isDigitStr g.2.2 = true
      ∧ 2 ≤ g.2.2.length ∧ g.2.2.length ≤ 4 := by
  unfold findallFull at hg
  rcases List.mem_map.mp hg with ⟨t, ht, rfl⟩
  refine scanAux_mem (fun g : String × String × String =>
    isMonthTok g.1 = true ∧ isDayTok g.2.1 = true ∧ isDigitStr g.2.2 = true
      ∧ 2 ≤ g.2.2.length ∧ g.2.2.length ≤ 4) ?_ _ _ _ _ ht
  intro cs' g' len' h'
  obtain ⟨m, d, y⟩ := g'
  obtain ⟨h1, h2, h3, h4, h5, _⟩ := matchFull_shape h'
  exact ⟨h1, h2, h3, h4, h5⟩

theorem findallMY_shape {cs : List Char} {g : String × String}
    (hg : g ∈ findallMY cs) :
    isMonthTok g.1 = true ∧ isDigitStr g.2 = true
      ∧ 2 ≤ g.2.length ∧ g.2.length ≤ 4 := by
  unfold findallMY at hg
  rcases List.mem_map.mp hg with ⟨t, ht, rfl⟩
  refine scanAux_mem (fun g : String × String =>
    isMonthTok g.1 = true ∧ isDigitStr g.2 = true
      ∧ 2 ≤ g.2.length ∧ g.2.length ≤ 4) ?_ _ _ _ _ ht
  intro cs' g' len' h'
  obtain ⟨m, y⟩ := g'
  obtain ⟨h1, h2, h3, h4, _⟩ := matchMY_shape h'
  exact ⟨h1, h2, h3, h4⟩

theorem span_candidates_spec {century : String} (hc2 : century.length = 2)
    (hcd : isDigitStr century = true) {cs : List Char} {s : String}
    (hs : s ∈ span_candidates century cs) :
    normalize_expiry_date century s = some s ∧ extractedShape s = true := by
  unfold span_candidates at hs
  rcases List.mem_append.mp hs with hfull | hmy
  · unfold full_candidates at hfull
    rcases List.mem_map.mp hfull with ⟨g, hg, rfl⟩
    obtain ⟨m, d, y⟩ := g
    obtain ⟨h1, h2, h3, h4, h5⟩ := findallFull_shape hg
    simp only [] at h1 h2 h3 h4 h5 ⊢
    obtain ⟨hrd, hr3, hr4⟩ := resolve_century_shape hc2 hcd h3 h4 h5
    obtain ⟨hmd, hml⟩ := monthTok_shape h1
    obtain ⟨hdd, hdl⟩ := dayTok_shape h2
    have hparts := strParts_build3 (no_slash_of_digitStr hmd)
      (no_slash_of_digitStr hdd) (no_slash_of_digitStr hrd)
    constructor
    · unfold normalize_expiry_date
      rw [hparts]
      dsimp only
      rw [zfill_of_le (by omega), zfill_of_le (by omega),
        resolve_century_of_ne (by omega)]
    · unfold extractedShape
      rw [hparts]
      simp [h1, h2, hrd, hr3, hr4]
  · unfold my_candidates at hmy
    rcases List.mem_map.mp hmy with ⟨g, hg, rfl⟩
    obtain ⟨m, y⟩ := g
    obtain ⟨h1, h3, h4, h5⟩ := findallMY_shape hg
    simp only [] at h1 h3 h4 h5 ⊢
    obtain ⟨hrd, hr3, hr4⟩ := resolve_century_shape hc2 hcd h3 h4 h5
    obtain ⟨hmd, hml⟩ := monthTok_shape h1
    have hparts := strParts_build2 (no_slash_of_digitStr hmd)
      (no_slash_of_digitStr hrd)
    constructor
    · unfold normalize_expiry_date
      rw [hparts]
      dsimp only
      rw [zfill_of_le (by omega), resolve_century_of_ne (by omega)]
    · unfold extractedShape
      rw [hparts]
      simp [h1, hrd, hr3, hr4]

/-! ## Membership in the tiers and the normalized set -/

theorem mem_tier_foldl {β : Type} {P : String → Prop}
    (cond : β → Bool) (f : β → List String)
    (hf : ∀ b s, s ∈ f b → P s) :
    ∀ (xs : List β) (init : List String), (∀ a ∈ init, P a) →
      ∀ a ∈ xs.foldl
        (fun acc b => if cond b then (f b).foldl insertCand acc else acc) init,
        P a := by
  intro xs
  induction xs with
  | nil => intro init hinit a ha; exact hinit a ha
  | cons x xs ih =>
    intro init hinit a ha
    simp only [List.foldl_cons] at ha
    refine ih _ ?_ a ha
    intro b hb
    by_cases hc : cond x
    · rw [if_pos hc] at hb
      rcases mem_foldl_insertCand.mp hb with h | h
      · exact hinit b h
      · exact hf x b h
    · rw [if_neg hc] at hb
      exact hinit b hb

theorem gather_spec {century text : String} (hc2 : century.length = 2)
    (hcd : isDigitStr century = true) :
    ∀ s ∈ gather_candidates century text,
      normalize_expiry_date century s = some s ∧ extractedShape s = true := by
  intro s hs
  have P1 : ∀ a ∈ tier1 century (splitlines text),
      normalize_expiry_date century a = some a ∧ extractedShape a = true := by
    intro a ha
    unfold tier1 at ha
    exact mem_tier_foldl keyword_search
      (fun line : String => span_candidates century line.toList)
      (fun b t ht => span_candidates_spec hc2 hcd ht) _ [] (by simp) a ha
  have P2 : ∀ a ∈ tier2 century (splitlines text),
      normalize_expiry_date century a = some a ∧ extractedShape a = true := by
    intro a ha
    unfold tier2 at ha
    exact mem_tier_foldl (fun p : String × String => keyword_search p.1)
      (fun p : String × String => span_candidates century p.2.toList)
      (fun b t ht => span_candidates_spec hc2 hcd ht) _ [] (by simp) a ha
  have P3 : ∀ a ∈ tier3 century text,
      normalize_expiry_date century a = some a ∧ extractedShape a = true := by
    intro a ha
    unfold tier3 at ha
    rcases mem_foldl_insertCand.mp ha with h | h
    · simp at h
    · exact span_candidates_spec hc2 hcd h
  unfold gather_candidates at hs
  simp only [] at hs
  split at hs
  · split at hs
    · exact P3 s hs
    · exact P2 s hs
  · exact P1 s hs

theorem mem_normalize_list {century : String} :
    ∀ (cands init : List String) (a : String),
      a ∈ cands.foldl
        (fun acc c =>
          match normalize_expiry_date century c with
          | some n => insertCand acc n
          | none => acc) init →
      a ∈ init ∨ ∃ c ∈ cands, normalize_expiry_date century c = some a := by
  intro cands
  induction cands with
  | nil => intro init a h; exact Or.inl h
  | cons c cs ih =>
    intro init a h
    simp only [List.foldl_cons] at h
    rcases ih _ _ h with hin | ⟨c', hc', he⟩
    · cases hn : normalize_expiry_date century c with
      | some n =>
        rw [hn] at hin
        rcases mem_insertCand.mp hin with h' | rfl
        · exact Or.inl h'
        · exact Or.inr ⟨c, List.mem_cons_self _ _, hn⟩
      | none =>
        rw [hn] at hin
        exact Or.inl hin
    · exact Or.inr ⟨c', List.mem_cons_of_mem _ hc', he⟩

theorem extract_shape {century text : String} (hc2 : century.length = 2)
    (hcd : isDigitStr century = true) :
    ∀ d ∈ extract_expiry_dates century text, extractedShape d = true := by
  intro d hd
  unfold extract_expiry_dates at hd
  have hmem := rank_mem hd
  unfold normalize_list at hmem
  rcases mem_normalize_list _ _ _ hmem with h | ⟨c, hc, he⟩
  · simp at h
  · obtain ⟨hnorm, hshape⟩ := gather_spec hc2 hcd c hc
    rw [hnorm] at he
    injection he with he
    rw [← he]
    exact hshape

/-! ## The proleptic Gregorian calendar: correctness of `fromOrdinal` -/

set_option maxHeartbeats 1000000 in
theorem monthDayOf_spec {y doy : Nat} (h1 : 1 ≤ doy)
    (h2 : doy ≤ 365 + (if isLeap y then 1 else 0)) :
    (monthDayOf y doy).1 = y
      ∧ 1 ≤ (monthDayOf y doy).2.1 ∧ (monthDayOf y doy).2.1 ≤ 12
      ∧ 1 ≤ (monthDayOf y doy).2.2
      ∧ (monthDayOf y doy).2.2 ≤ daysInMonth y (monthDayOf y doy).2.1
      ∧ daysBeforeMonth y (monthDayOf y doy).2.1 + (monthDayOf y doy).2.2 = doy := by
  rcases hmd : monthDayOf y doy with ⟨y2, m, d⟩
  dsimp only
  cases hl : isLeap y
  case false =>
    have hlp : (if isLeap y then 1 else 0) = 0 := by rw [hl]; rfl
    rw [hlp] at h2
    unfold monthDayOf at hmd
    rw [hlp] at hmd
    by_cases c1 : doy ≤ 31
    · rw [if_pos c1] at hmd
      injection hmd with e1 rest
      injection rest with e2 e3
      subst e1; subst e2; subst e3
      refine ⟨rfl, by omega, by omega, by omega, ?_, ?_⟩
      · simp [daysInMonth, hl] <;> omega
      · simp [daysBeforeMonth, hl] <;> omega
    rw [if_neg c1] at hmd
    by_cases c2 : doy ≤ 59 + 0
    · rw [if_pos c2] at hmd
      injection hmd with e1 rest
      injection rest with e2 e3
      subst e1; subst e2; subst e3
      refine ⟨rfl, by omega, by omega, by omega, ?_, ?_⟩
      · simp [daysInMonth, hl] <;> omega
      · simp [daysBeforeMonth, hl] <;> omega
    rw [if_neg c2] at hmd
    by_cases c3 : doy ≤ 90 + 0
    · rw [if_pos c3] at hmd
      injection hmd with e1 rest
      injection rest with e2 e3
      subst e1; subst e2; subst e3
      refine ⟨rfl, by omega, by omega, by omega, ?_, ?_⟩
      · simp [daysInMonth, hl] <;> omega
      · simp [daysBeforeMonth, hl] <;> omega
    rw [if_neg c3] at hmd
    by_cases c4 : doy ≤ 120 + 0
    · rw [if_pos c4] at hmd
      injection hmd with e1 rest
      injection rest with e2 e3
      subst e1; subst e2; subst e3
      refine ⟨rfl, by omega, by omega, by omega, ?_, ?_⟩
      · simp [daysInMonth, hl] <;> omega
      · simp [daysBeforeMonth, hl] <;> omega
    rw [if_neg c4] at hmd
    by_cases c5 : doy ≤ 151 + 0
    · rw [if_pos c5] at hmd
      injection hmd with e1 rest
      injection rest with e2 e3
      subst e1; subst e2; subst e3
      refine ⟨rfl, by omega, by omega, by omega, ?_, ?_⟩
      · simp [daysInMonth, hl] <;> omega
      · simp [daysBeforeMonth, hl] <;> omega
    rw [if_neg c5] at hmd
    by_cases c6 : doy ≤ 181 + 0
    · rw [if_pos c6] at hmd
      injection hmd with e1 rest
      injection rest with e2 e3
      subst e1; subst e2; subst e3
      refine ⟨rfl, by omega, by omega, by omega, ?_, ?_⟩
      · simp [daysInMonth, hl] <;> omega
      · simp [daysBeforeMonth, hl] <;> omega
    rw [if_neg c6] at hmd
    by_cases c7 : doy ≤ 212 + 0
    · rw [if_pos c7] at hmd
      injection hmd with e1 rest
      injection rest with e2 e3
      subst e1; subst e2; subst e3
      refine ⟨rfl, by omega, by omega, by omega, ?_, ?_⟩
      · simp [daysInMonth, hl] <;> omega
      · simp [daysBeforeMonth, hl] <;> omega
    rw [if_neg c7] at hmd
    by_cases c8 : doy ≤ 243 + 0
    · rw [if_pos c8] at hmd
      injection hmd with e1 rest
      injection rest with e2 e3
      subst e1; subst e2; subst e3
      refine ⟨rfl, by omega, by omega, by omega, ?_, ?_⟩
      · simp [daysInMonth, hl] <;> omega
      · simp [daysBeforeMonth, hl] <;> omega
    rw [if_neg c8] at hmd
    by_cases c9 : doy ≤ 273 + 0
    · rw [if_pos c9] at hmd
      injection hmd with e1 rest
      injection rest with e2 e3
      subst e1; subst e2; subst e3
      refine ⟨rfl, by omega, by omega, by omega, ?_, ?_⟩
      · simp [daysInMonth, hl] <;> omega
      · simp [daysBeforeMonth, hl] <;> omega
    rw [if_neg c9] at hmd
    by_cases c10 : doy ≤ 304 + 0
    · rw [if_pos c10] at hmd
      injection hmd with e1 rest
      injection rest with e2 e3
      subst e1; subst e2; subst e3
      refine ⟨rfl, by omega, by omega, by omega, ?_, ?_⟩
      · simp [daysInMonth, hl] <;> omega
      · simp [daysBeforeMonth, hl] <;> omega
    rw [if_neg c10] at hmd
    by_cases c11 : doy ≤ 334 + 0
    · rw [if_pos c11] at hmd
      injection hmd with e1 rest
      injection rest with e2 e3
      subst e1; subst e2; subst e3
      refine ⟨rfl, by omega, by omega, by omega, ?_, ?_⟩
      · simp [daysInMonth, hl] <;> omega
      · simp [daysBeforeMonth, hl] <;> omega
    rw [if_neg c11] at hmd
    injection hmd with e1 rest
    injection rest with e2 e3
    subst e1; subst e2; subst e3
    refine ⟨rfl, by omega, by omega, by omega, ?_, ?_⟩
    · simp [daysInMonth, hl] <;> omega
    · simp [daysBeforeMonth, hl] <;> omega
  case true =>
    have hlp : (if isLeap y then 1 else 0) = 1 := by rw [hl]; rfl
    rw [hlp] at h2
    unfold monthDayOf at hmd
    rw [hlp] at hmd
    by_cases c1 : doy ≤ 31
    · rw [if_pos c1] at hmd
      injection hmd with e1 rest
      injection rest with e2 e3
      subst e1; subst e2; subst e3
      refine ⟨rfl, by omega, by omega, by omega, ?_, ?_⟩
      · simp [daysInMonth, hl] <;> omega
      · simp [daysBeforeMonth, hl] <;> omega
    rw [if_neg c1] at hmd
    by_cases c2 : doy ≤ 59 + 1
    · rw [if_pos c2] at hmd
      injection hmd with e1 rest
      injection rest with e2 e3
      subst e1; subst e2; subst e3
      refine ⟨rfl, by omega, by omega, by omega, ?_, ?_⟩
      · simp [daysInMonth, hl] <;> omega
      · simp [daysBeforeMonth, hl] <;> omega
    rw [if_neg c2] at hmd
    by_cases c3 : doy ≤ 90 + 1
    · rw [if_pos c3] at hmd
      injection hmd with e1 rest
      injection rest with e2 e3
      subst e1; subst e2; subst e3
      refine ⟨rfl, by omega, by omega, by omega, ?_, ?_⟩
      · simp [daysInMonth, hl] <;> omega
      · simp [daysBeforeMonth, hl] <;> omega
    rw [if_neg c3] at hmd
    by_cases c4 : doy ≤ 120 + 1
    · rw [if_pos c4] at hmd
      injection hmd with e1 rest
      injection rest with e2 e3
      subst e1; subst e2; subst e3
      refine ⟨rfl, by omega, by omega, by omega, ?_, ?_⟩
      · simp [daysInMonth, hl] <;> omega
      · simp [daysBeforeMonth, hl] <;> omega
    rw [if_neg c4] at hmd
    by_cases c5 : doy ≤ 151 + 1
    · rw [if_pos c5] at hmd
      injection hmd with e1 rest
      injection rest with e2 e3
      subst e1; subst e2; subst e3
      refine ⟨rfl, by omega, by omega, by omega, ?_, ?_⟩
      · simp [daysInMonth, hl] <;> omega
      · simp [daysBeforeMonth, hl] <;> omega
    rw [if_neg c5] at hmd
    by_cases c6 : doy ≤ 181 + 1
    · rw [if_pos c6] at hmd
      injection hmd with e1 rest
      injection rest with e2 e3
      subst e1; subst e2; subst e3
      refine ⟨rfl, by omega, by omega, by omega, ?_, ?_⟩
      · simp [daysInMonth, hl] <;> omega
      · simp [daysBeforeMonth, hl] <;> omega
    rw [if_neg c6] at hmd
    by_cases c7 : doy ≤ 212 + 1
    · rw [if_pos c7] at hmd
      injection hmd with e1 rest
      injection rest with e2 e3
      subst e1; subst e2; subst e3
      refine ⟨rfl, by omega, by omega, by omega, ?_, ?_⟩
      · simp [daysInMonth, hl] <;> omega
      · simp [daysBeforeMonth, hl] <;> omega
    rw [if_neg c7] at hmd
    by_cases c8 : doy ≤ 243 + 1
    · rw [if_pos c8] at hmd
      injection hmd with e1 rest
      injection rest with e2 e3
      subst e1; subst e2; subst e3
      refine ⟨rfl, by omega, by omega, by omega, ?_, ?_⟩
      · simp [daysInMonth, hl] <;> omega
      · simp [daysBeforeMonth, hl] <;> omega
    rw [if_neg c8] at hmd
    by_cases c9 : doy ≤ 273 + 1
    · rw [if_pos c9] at hmd
      injection hmd with e1 rest
      injection rest with e2 e3
      subst e1; subst e2; subst e3
      refine ⟨rfl, by omega, by omega, by omega, ?_, ?_⟩
      · simp [daysInMonth, hl] <;> omega
      · simp [daysBeforeMonth, hl] <;> omega
    rw [if_neg c9] at hmd
    by_cases c10 : doy ≤ 304 + 1
    · rw [if_pos c10] at hmd
      injection hmd with e1 rest
      injection rest with e2 e3
      subst e1; subst e2; subst e3
      refine ⟨rfl, by omega, by omega, by omega, ?_, ?_⟩
      · simp [daysInMonth, hl] <;> omega
      · simp [daysBeforeMonth, hl] <;> omega
    rw [if_neg c10] at hmd
    by_cases c11 : doy ≤ 334 + 1
    · rw [if_pos c11] at hmd
      injection hmd with e1 rest
      injection rest with e2 e3
      subst e1; subst e2; subst e3
      refine ⟨rfl, by omega, by omega, by omega, ?_, ?_⟩
      · simp [daysInMonth, hl] <;> omega
      · simp [daysBeforeMonth, hl] <;> omega
    rw [if_neg c11] at hmd
    injection hmd with e1 rest
    injection rest with e2 e3
    subst e1; subst e2; subst e3
    refine ⟨rfl, by omega, by omega, by omega, ?_, ?_⟩
    · simp [daysInMonth, hl] <;> omega
    · simp [daysBeforeMonth, hl] <;> omega

theorem isLeap_iff {x : Nat} :
    isLeap x = true ↔ (x % 4 = 0 ∧ (x % 100 ≠ 0 ∨ x % 400 = 0)) := by
  simp [isLeap]

theorem dBY_decomp (a b c d : Nat) (hb : b ≤ 3) (hc : c ≤ 24) (hd : d ≤ 3) :
    daysBeforeYear (a * 400 + b * 100 + c * 4 + d + 1)
      = 146097 * a + 36524 * b + 1461 * c + 365 * d := by
  unfold daysBeforeYear
  simp only [Nat.add_sub_cancel]
  have e4 : (a * 400 + b * 100 + c * 4 + d) / 4 = a * 100 + b * 25 + c := by omega
  have e100 : (a * 400 + b * 100 + c * 4 + d) / 100 = a * 4 + b := by omega
  have e400 : (a * 400 + b * 100 + c * 4 + d) / 400 = a := by omega
  rw [e4, e100, e400]
  ring_nf
  omega

theorem dBY_dec2 (a b c : Nat) (hb : b ≤ 3) (hc : c ≤ 24) :
    daysBeforeYear (a * 400 + b * 100 + c * 4 + 4)
      = 146097 * a + 36524 * b + 1461 * c + 1095 := by
  unfold daysBeforeYear
  have hpy : a * 400 + b * 100 + c * 4 + 4 - 1 = a * 400 + b * 100 + c * 4 + 3 := by omega
  rw [hpy]
  simp only []
  have e4 : (a * 400 + b * 100 + c * 4 + 3) / 4 = a * 100 + b * 25 + c := by omega
  have e100 : (a * 400 + b * 100 + c * 4 + 3) / 100 = a * 4 + b := by omega
  have e400 : (a * 400 + b * 100 + c * 4 + 3) / 400 = a := by omega
  rw [e4, e100, e400]
  ring_nf
  omega

set_option maxHeartbeats 1000000 in
theorem fromOrdinal_spec {n : Nat} (hn : 1 ≤ n) :
    ValidYMD (fromOrdinal n)
      ∧ toOrdinal (fromOrdinal n).1 (fromOrdinal n).2.1 (fromOrdinal n).2.2 = n := by
  rcases hfo : fromOrdinal n with ⟨y2, m, d⟩
  dsimp only
  unfold fromOrdinal at hfo
  simp only [] at hfo
  by_cases hs : (n - 1) % 146097 % 36524 % 1461 / 365 = 4 ∨ (n - 1) % 146097 / 36524 = 4
  · rw [if_pos hs] at hfo
    injection hfo with e1 rest
    injection rest with e2 e3
    subst e1; subst e2; subst e3
    unfold ValidYMD
    dsimp only
    refine ⟨⟨by omega, by omega, by omega, by omega, by simp [daysInMonth]⟩, ?_⟩
    unfold toOrdinal
    rcases hs with hq1 | hq100
    · have hq4 : (n - 1) % 146097 % 36524 / 1461 ≤ 23 := by omega
      have hq100' : (n - 1) % 146097 / 36524 ≤ 3 := by omega
      have hY : (n - 1) / 146097 * 400 + (n - 1) % 146097 / 36524 * 100 + (n - 1) % 146097 % 36524 / 1461 * 4 + (n - 1) % 146097 % 36524 % 1461 / 365 + 1 - 1 = (n - 1) / 146097 * 400 + (n - 1) % 146097 / 36524 * 100 + (n - 1) % 146097 % 36524 / 1461 * 4 + 4 := by omega
      rw [hY, dBY_dec2 _ _ _ hq100' (by omega)]
      have hleap : isLeap ((n - 1) / 146097 * 400 + (n - 1) % 146097 / 36524 * 100 + (n - 1) % 146097 % 36524 / 1461 * 4 + 4) = true :=
        isLeap_iff.mpr (by omega)
      simp only [daysBeforeMonth, hleap]
      norm_num
      omega
    · have hY : (n - 1) / 146097 * 400 + (n - 1) % 146097 / 36524 * 100 + (n - 1) % 146097 % 36524 / 1461 * 4 + (n - 1) % 146097 % 36524 % 1461 / 365 + 1 - 1 = (n - 1) / 146097 * 400 + 3 * 100 + 24 * 4 + 4 := by omega
      rw [hY, dBY_dec2 _ 3 24 (by omega) (by omega)]
      have hleap : isLeap ((n - 1) / 146097 * 400 + 3 * 100 + 24 * 4 + 4) = true :=
        isLeap_iff.mpr (by omega)
      simp only [daysBeforeMonth, hleap]
      norm_num
      omega
  · rw [if_neg hs] at hfo
    rw [not_or] at hs
    obtain ⟨hs1, hs2⟩ := hs
    have hk1 : (n - 1) % 146097 % 36524 % 1461 % 365 < 365 := Nat.mod_lt _ (by norm_num)
    have hk : (n - 1) % 146097 % 36524 % 1461 % 365 + 1 ≤ 365 + (if isLeap ((n - 1) / 146097 * 400 + (n - 1) % 146097 / 36524 * 100 + (n - 1) % 146097 % 36524 / 1461 * 4 + (n - 1) % 146097 % 36524 % 1461 / 365 + 1) then 1 else 0) := by
      cases isLeap ((n - 1) / 146097 * 400 + (n - 1) % 146097 / 36524 * 100 + (n - 1) % 146097 % 36524 / 1461 * 4 + (n - 1) % 146097 % 36524 % 1461 / 365 + 1) <;> simp <;> omega
    obtain ⟨s1, s2, s3, s4, s5, s6⟩ := monthDayOf_spec (Nat.le_add_left 1 _) hk
    rw [hfo] at s1 s2 s3 s4 s5 s6
    dsimp only at s1 s2 s3 s4 s5 s6
    subst s1
    unfold ValidYMD
    dsimp only
    refine ⟨⟨by omega, s2, s3, s4, s5⟩, ?_⟩
    unfold toOrdinal
    rw [Nat.add_assoc, s6]
    rw [dBY_decomp _ _ _ _ (by omega) (by omega) (by omega)]
    omega

/-! ## Evaluating the strptime model on built month/year strings -/

theorem daysInMonth_pos (y m : Nat) : 1 ≤ daysInMonth y m := by
  unfold daysInMonth
  split_ifs <;> omega

theorem monthAlts_zero {c : Char} (h1 : '1' ≤ c) (h2 : c ≤ '9') (r : List Char) :
    monthAlts ('0' :: c :: r) = [(c.toNat - 48, r)] := by
  unfold monthAlts
  split
  · next heq => simp at heq
  · next c0 r0 heq =>
    injection heq with e1 e2
    subst e1
    subst e2
    rw [if_pos rfl]
    dsimp only
    rw [if_pos ⟨h1, h2⟩, if_neg (show ¬('1' ≤ '0' ∧ '0' ≤ '9') by decide)]
    simp
  · next heq => simp at heq

theorem monthAlts_one {c : Char} (h1 : '0' ≤ c) (h2 : c ≤ '2') (r : List Char) :
    monthAlts ('1' :: c :: r) = [(10 + (c.toNat - 48), r), (1, c :: r)] := by
  unfold monthAlts
  split
  · next c0 r0 heq =>
    injection heq with e1 e2
    injection e2 with e2 e3
    subst e2; subst e3
    rw [if_pos ⟨h1, h2⟩]
    rfl
  · next c0 r0 hno heq =>
    exfalso
    injection heq with e1 e2
    subst e1
    exact hno c r rfl (by rw [e2])
  · next heq => simp at heq

theorem year4_eval {y1 y2 y3 y4 : Char} (hd1 : y1.isDigit = true)
    (hd2 : y2.isDigit = true) (hd3 : y3.isDigit = true) (hd4 : y4.isDigit = true) :
    year4 [y1, y2, y3, y4]
      = some ((y1.toNat - 48) * 1000 + (y2.toNat - 48) * 100 + (y3.toNat - 48) * 10
          + (y4.toNat - 48), []) := by
  have h0 : year4 [y1, y2, y3, y4]
      = if y1.isDigit = true ∧ y2.isDigit = true ∧ y3.isDigit = true ∧ y4.isDigit = true
        then some ((y1.toNat - 48) * 1000 + (y2.toNat - 48) * 100 + (y3.toNat - 48) * 10
          + (y4.toNat - 48), ([] : List Char))
        else none := rfl
  rw [h0, if_pos ⟨hd1, hd2, hd3, hd4⟩]

theorem myTail_eval {v : Nat} {y1 y2 y3 y4 : Char} (hd1 : y1.isDigit = true)
    (hd2 : y2.isDigit = true) (hd3 : y3.isDigit = true) (hd4 : y4.isDigit = true) :
    myTail (v, '/' :: [y1, y2, y3, y4])
      = some ((y1.toNat - 48) * 1000 + (y2.toNat - 48) * 100 + (y3.toNat - 48) * 10
          + (y4.toNat - 48), v, 1) := by
  have h0 : myTail (v, '/' :: [y1, y2, y3, y4])
      = (match year4 [y1, y2, y3, y4] with
         | some (y, []) => some (y, v, 1)
         | _ => none) := rfl
  rw [h0, year4_eval hd1 hd2 hd3 hd4]

set_option maxHeartbeats 1600000 in
theorem parse_my_builds {mm : String} (hmm : isMonthTok mm = true)
    {y1 y2 y3 y4 : Char} (hd1 : y1.isDigit = true) (hd2 : y2.isDigit = true)
    (hd3 : y3.isDigit = true) (hd4 : y4.isDigit = true)
    (hy : 1 ≤ (y1.toNat - 48) * 1000 + (y2.toNat - 48) * 100 + (y3.toNat - 48) * 10
      + (y4.toNat - 48)) :
    parse_expiry (mm ++ "/" ++ (⟨[y1, y2, y3, y4]⟩ : String))
      = some ((y1.toNat - 48) * 1000 + (y2.toNat - 48) * 100 + (y3.toNat - 48) * 10
          + (y4.toNat - 48), natOfStr mm, 1) := by
  have hyd : isDigitStr (⟨[y1, y2, y3, y4]⟩ : String) = true := by
    simp [isDigitStr, String.toList, hd1, hd2, hd3, hd4]
  have hys : '/' ∉ (⟨[y1, y2, y3, y4]⟩ : String).data := no_slash_of_digitStr hyd
  have hmd := monthTok_shape hmm
  have hms : '/' ∉ mm.data := no_slash_of_digitStr hmd.1
  unfold parse_expiry
  rw [strParts_build2 hms hys, if_neg (by simp)]
  rcases mm with ⟨l⟩
  unfold isMonthTok at hmm
  dsimp only [String.toList] at hmm
  have hdata : ((⟨l⟩ : String) ++ "/" ++ (⟨[y1, y2, y3, y4]⟩ : String)).toList
      = l ++ '/' :: [y1, y2, y3, y4] := by
    simp [String.toList, String.data_append]
  rw [hdata]
  have h48 : ('0' : Char).toNat = 48 := rfl
  have h49 : ('1' : Char).toNat = 49 := rfl
  split at hmm
  · next c =>
    simp only [Bool.and_eq_true, decide_eq_true_eq] at hmm
    simp only [List.cons_append, List.nil_append]
    unfold regex_mY
    rw [monthAlts_zero hmm.1 hmm.2]
    simp only [List.findSome?]
    rw [myTail_eval hd1 hd2 hd3 hd4]
    simp only [Option.bind]
    unfold validateDate
    rw [if_pos ⟨hy, daysInMonth_pos _ _⟩]
    simp only [natOfStr, List.foldl, Option.some.injEq, Prod.mk.injEq]
    rw [h48]
    exact ⟨trivial, by omega, trivial⟩
  · next c =>
    simp only [Bool.and_eq_true, decide_eq_true_eq] at hmm
    simp only [List.cons_append, List.nil_append]
    unfold regex_mY
    rw [monthAlts_one hmm.1 hmm.2]
    simp only [List.findSome?]
    rw [myTail_eval hd1 hd2 hd3 hd4]
    simp only [Option.bind]
    unfold validateDate
    rw [if_pos ⟨hy, daysInMonth_pos _ _⟩]
    simp only [natOfStr, List.foldl, Option.some.injEq, Prod.mk.injEq]
    rw [h49]
    exact ⟨trivial, by omega, trivial⟩
  · simp at hmm

/-! ## Remaining shared lemmas -/

theorem normalize_none {century c : String} (h2 : (strParts c).length ≠ 2)
    (h3 : (strParts c).length ≠ 3) : normalize_expiry_date century c = none := by
  unfold normalize_expiry_date
  cases hp : strParts c with
  | nil => rfl
  | cons a t =>
    cases t with
    | nil => rfl
    | cons b t2 =>
      cases t2 with
      | nil => exact absurd (by rw [hp]; rfl) h2
      | cons e t3 =>
        cases t3 with
        | nil => exact absurd (by rw [hp]; rfl) h3
        | cons f t4 => rfl

theorem monthTok_val {mm : String} (h : isMonthTok mm = true) :
    1 ≤ natOfStr mm ∧ natOfStr mm ≤ 12 := by
  rcases mm with ⟨l⟩
  unfold isMonthTok at h
  dsimp only [String.toList] at h
  split at h
  · next c =>
    simp only [Bool.and_eq_true, decide_eq_true_eq] at h
    have n1 := char_toNat_le_of_le h.1
    have n2 := char_toNat_le_of_le h.2
    have e1 : ('1' : Char).toNat = 49 := rfl
    have e9 : ('9' : Char).toNat = 57 := rfl
    rw [e1] at n1; rw [e9] at n2
    simp only [natOfStr, List.foldl]
    have e0 : ('0' : Char).toNat = 48 := rfl
    rw [e0]
    omega
  · next c =>
    simp only [Bool.and_eq_true, decide_eq_true_eq] at h
    have n1 := char_toNat_le_of_le h.1
    have n2 := char_toNat_le_of_le h.2
    have e0 : ('0' : Char).toNat = 48 := rfl
    have e2 : ('2' : Char).toNat = 50 := rfl
    rw [e0] at n1; rw [e2] at n2
    simp only [natOfStr, List.foldl]
    have e1 : ('1' : Char).toNat = 49 := rfl
    rw [e1]
    omega
  · simp at h

theorem toOrdinal_my_gt30 {y m : Nat} (hy : 1 ≤ y) (hm1 : 1 ≤ m) (hm2 : m ≤ 12)
    (hne : ¬(m = 1 ∧ y = 1)) : 30 < toOrdinal y m 1 := by
  unfold toOrdinal
  interval_cases m <;> unfold daysBeforeMonth daysBeforeYear <;>
    cases hL : isLeap y <;> simp [hL] <;> omega

theorem normalize_fixed (century : String) {d : String} (h : specNormalizedDate d = true) :
    normalize_expiry_date century d = some d := by
  unfold specNormalizedDate at h
  unfold normalize_expiry_date
  cases hp : strParts d with
  | nil => rw [hp] at h; simp at h
  | cons a t =>
    cases t with
    | nil => rw [hp] at h; simp at h
    | cons b t2 =>
      cases t2 with
      | nil =>
        rw [hp] at h
        simp only [Bool.and_eq_true, beq_iff_eq] at h
        obtain ⟨⟨hal, hbl⟩, _⟩ := h
        dsimp only
        rw [zfill_of_le (by omega), resolve_century_of_ne (by omega)]
        rw [← strParts_two hp]
      | cons e t3 =>
        cases t3 with
        | nil =>
          rw [hp] at h
          simp only [Bool.and_eq_true, beq_iff_eq] at h
          obtain ⟨⟨⟨⟨hal, hbl⟩, hel⟩, _⟩, _⟩ := h
          dsimp only
          rw [zfill_of_le (by omega), zfill_of_le (by omega),
            resolve_century_of_ne (by omega)]
          rw [← strParts_three hp]
        | cons f t4 => rw [hp] at h; simp at h

/-! ## The claims -/

/-- C1: for every non-empty list of normalized candidates the ranker of
app.py lines 113-127 returns exactly one date: when some full
(three-component) date exists it returns a full date of maximal
`date_key` among the full dates — the first full date in descending
key order — and otherwise a candidate of maximal key (the latest
date); in particular on `{"12/2030", "01/15/2025"}` it returns
`"01/15/2025"`, preferring the full date over the later partial one. -/
theorem C1_ranker_prefers_full_dates (l : List String) (h : l ≠ []) :
    (∃ d, rank_candidates l = [d] ∧ d ∈ l ∧
      ((∃ e ∈ l, isFullDate e = true) →
        isFullDate d = true ∧ ∀ e ∈ l, isFullDate e = true → date_key e ≤ date_key d) ∧
      ((∀ e ∈ l, isFullDate e = false) → ∀ e ∈ l, date_key e ≤ date_key d))
    ∧ rank_candidates ["12/2030", "01/15/2025"] = ["01/15/2025"] :=
  ⟨rank_spec h, by decide⟩

theorem C1_ranker_prefers_full_dates_witness :
    rank_candidates ["12/2030", "01/15/2025"] = ["01/15/2025"] :=
  (C1_ranker_prefers_full_dates ["12/2030", "01/15/2025"] (by decide)).2

/-- C2: the three search tiers run in strict order, stopping at the
first tier that yields at least one candidate: the next-line tier is
consulted only when the same-line tier produced no candidate, and the
global scan only when both keyword tiers produced none (app.py lines
53-106). -/
theorem C2_tier_fallback_order (century text : String) :
    (tier1 century (splitlines text) ≠ [] →
      gather_candidates century text = tier1 century (splitlines text))
    ∧ (tier1 century (splitlines text) = [] →
        tier2 century (splitlines text) ≠ [] →
        gather_candidates century text = tier2 century (splitlines text))
    ∧ (tier1 century (splitlines text) = [] →
        tier2 century (splitlines text) = [] →
        gather_candidates century text = tier3 century text) := by
  have hiff : ∀ l : List String, l.isEmpty = true ↔ l = [] := fun l => by
    cases l <;> simp
  refine ⟨fun h1 => ?_, fun h1 h2 => ?_, fun h1 h2 => ?_⟩
  · unfold gather_candidates
    simp only []
    rw [if_neg (fun he => h1 ((hiff _).mp he))]
  · unfold gather_candidates
    simp only []
    rw [if_pos ((hiff _).mpr h1), if_neg (fun he => h2 ((hiff _).mp he))]
  · unfold gather_candidates
    simp only []
    rw [if_pos ((hiff _).mpr h1), if_pos ((hiff _).mpr h2)]

theorem C2_tier_fallback_order_witness :
    gather_candidates "20" "Expiry date:\n01/15/2025"
      = tier2 "20" (splitlines "Expiry date:\n01/15/2025") :=
  (C2_tier_fallback_order "20" "Expiry date:\n01/15/2025").2.1 (by decide) (by decide)

/-- C3 as stated is false on the code: with the clock reading year
2025, the extractor returns `"01/15/202"` for the text `"01/15/202"`
— a matched three-digit year token passes through the century fix and
the normalizer unchanged, so the output year is not always exactly
four digits. -/
theorem C3_counterexample :
    extract_expiry_dates_at 2025 "01/15/202" = ["01/15/202"]
      ∧ specNormalizedDate "01/15/202" = false := by decide

/-- C3 amended: for every input text the extractor returns zero or one
candidate; a returned candidate has a two-digit zero-padded month (and
day) token, and a year token of three or four digits — a two-digit
year is century-expanded to four digits, while a three-digit year
passes through unchanged; the empty text yields the empty sequence. -/
theorem C3_output_shape (century text : String) (hc2 : century.length = 2)
    (hcd : isDigitStr century = true) :
    (extract_expiry_dates century text).length ≤ 1
    ∧ (∀ d ∈ extract_expiry_dates century text, extractedShape d = true)
    ∧ extract_expiry_dates century "" = [] :=
  ⟨rank_length _, extract_shape hc2 hcd, rfl⟩

theorem C3_output_shape_witness :
    (extract_expiry_dates "20" "EXP 08/30/2028").length ≤ 1
    ∧ (∀ d ∈ extract_expiry_dates "20" "EXP 08/30/2028", extractedShape d = true)
    ∧ extract_expiry_dates "20" "" = [] :=
  C3_output_shape "20" "EXP 08/30/2028" (by decide) (by decide)

/-- C4 as stated is false on the code: the link built for
`"08/30/2028"` exists but nowhere contains `dates=20280731/20280801`
— the second endpoint is computed as reminder + 1 hour, which formats
to the same day as the first. -/
theorem C4_counterexample :
    linkIsSome (create_google_calendar_link "08/30/2028") = true
      ∧ linkContains (create_google_calendar_link "08/30/2028")
          "dates=20280731/20280801" = false := by decide

/-- C4 amended: the reminder is expiry − 30 days, but the dates range
starts and ends on that same reminder day (the code adds one hour, not
one day, to the midnight reminder before formatting), so the URL for
`"08/30/2028"` carries `dates=20280731/20280731`, a URL-encoded
details string mentioning `08/30/2028`, and the `action=TEMPLATE`,
`text`, `dates` and `details` parameters; 2028-07-31 is exactly 30
days before 2028-08-30. -/
theorem C4_reminder_link_contents :
    linkIsSome (create_google_calendar_link "08/30/2028") = true
    ∧ linkContains (create_google_calendar_link "08/30/2028")
        "dates=20280731/20280731" = true
    ∧ linkContains (create_google_calendar_link "08/30/2028") "08/30/2028" = true
    ∧ linkContains (create_google_calendar_link "08/30/2028") "action=TEMPLATE" = true
    ∧ linkContains (create_google_calendar_link "08/30/2028") "&text=" = true
    ∧ linkContains (create_google_calendar_link "08/30/2028") "&dates=" = true
    ∧ linkContains (create_google_calendar_link "08/30/2028") "&details=" = true
    ∧ toOrdinal 2028 7 31 + 30 = toOrdinal 2028 8 30 := by decide

/-- C5 as stated is false on the code: `extract_expiry_dates` takes no
date argument and reads `datetime.now()` internally (app.py lines 41
and 54), and the result genuinely depends on that ambient reading —
the same text yields `"01/2025"` under a 2025 clock and `"01/1925"`
under a 1999 clock. -/
theorem C5_counterexample :
    extract_expiry_dates_at 2025 "EXP 01/25" = ["01/2025"]
      ∧ extract_expiry_dates_at 1999 "EXP 01/25" = ["01/1925"]
      ∧ extract_expiry_dates_at 2025 "EXP 01/25"
          ≠ extract_expiry_dates_at 1999 "EXP 01/25" := by decide

/-- C5 amended: the engine is a pure function of the text and the
clock reading: modelling the ambient `datetime.now()` read as the
explicit year argument of `extract_expiry_dates_at`, equal texts and
equal clock years give identical results; but the clock year is a
genuine input — different readings can change the result. -/
theorem C5_determinism (y1 y2 : Nat) (t1 t2 : String) (hy : y1 = y2) (ht : t1 = t2) :
    extract_expiry_dates_at y1 t1 = extract_expiry_dates_at y2 t2
      ∧ extract_expiry_dates_at 2025 "EXP 01/25"
          ≠ extract_expiry_dates_at 1999 "EXP 01/25" := by
  subst hy; subst ht
  exact ⟨rfl, by decide⟩

theorem C5_determinism_witness :
    extract_expiry_dates_at 2025 "EXP 01/25" = extract_expiry_dates_at 2025 "EXP 01/25"
      ∧ extract_expiry_dates_at 2025 "EXP 01/25"
          ≠ extract_expiry_dates_at 1999 "EXP 01/25" :=
  C5_determinism 2025 2025 "EXP 01/25" "EXP 01/25" rfl rfl

/-- C6: the century resolver maps a year token of length exactly two
to the token prefixed with the first two characters of the decimal
rendering of the current calendar year, and leaves every other year
token (four-digit, three-digit, or any other length) unchanged
(app.py lines 40-41, 64-65). -/
theorem C6_century_resolution (nowYear : Nat) (y : String) :
    resolve_century (current_century nowYear) y
      = (if y.length = 2 then current_century nowYear ++ y else y)
    ∧ resolve_century (current_century 2025) "30" = "2030"
    ∧ resolve_century (current_century 2025) "305" = "305"
    ∧ resolve_century (current_century 2025) "2030" = "2030"
    ∧ current_century 2025 = "20" :=
  ⟨rfl, by decide, by decide, by decide, rfl⟩

/-- C7 as stated is false on the code: `"01/15/0001"` parses
successfully, but the 30-day subtraction of app.py line 139 — outside
the `try` of lines 132-138 — overflows below the minimum date and
raises instead of returning absence. -/
theorem C7_counterexample :
    parse_expiry "01/15/0001" = some (1, 1, 15)
      ∧ linkRaises (create_google_calendar_link "01/15/0001") = true := by decide

/-- C7 amended: parse failure always degrades to absence, never an
exception — e.g. `"13/2028"` — and the normalizer silently skips any
candidate with neither two nor three slash-separated components; but
the link builder does raise (an uncaught OverflowError) exactly when
the parsed expiry date lies at most 30 days after 0001-01-01. -/
theorem C7_failure_paths :
    (∀ s : String, parse_expiry s = none →
      create_google_calendar_link s = Except.ok none)
    ∧ (∀ (s : String) (y m d : Nat), parse_expiry s = some (y, m, d) →
        (create_google_calendar_link s = Except.error () ↔ toOrdinal y m d ≤ 30))
    ∧ (∀ century c : String, (strParts c).length ≠ 2 → (strParts c).length ≠ 3 →
        normalize_expiry_date century c = none)
    ∧ create_google_calendar_link "13/2028" = Except.ok none := by
  refine ⟨?_, ?_, fun century c h2 h3 => normalize_none h2 h3, rfl⟩
  · intro s hp
    unfold create_google_calendar_link
    rw [hp]
  · intro s y m d hp
    unfold create_google_calendar_link
    rw [hp]
    dsimp only
    by_cases ho : toOrdinal y m d ≤ 30
    · rw [if_pos ho]
      exact ⟨fun _ => ho, fun _ => rfl⟩
    · rw [if_neg ho]
      exact ⟨fun h => absurd h (by simp), fun h => absurd h ho⟩

theorem C7_failure_paths_witness :
    create_google_calendar_link "13/2028" = Except.ok none
      ∧ create_google_calendar_link "01/01/0001" = Except.error () :=
  ⟨C7_failure_paths.1 "13/2028" (by decide),
    (C7_failure_paths.2.1 "01/01/0001" 1 1 1 (by decide)).mpr (by decide)⟩

/-- C8 as stated is false on the code: on the span `"01/15/2025"` the
full-date pattern matches `[0,10)` and the month/year pattern — run
independently over the same span — matches `[0,5)`, and the two
produced matches overlap. -/
theorem C8_counterexample :
    findallFullSpans "01/15/2025".toList = [(0, 10, ("01", "15", "2025"))]
      ∧ findallMYSpans "01/15/2025".toList = [(0, 5, ("01", "15"))]
      ∧ spansOverlap (0, 10) (0, 5) :=
  ⟨by decide, by decide, by norm_num, by norm_num⟩

/-- C8 amended: for every text span, each of the two patterns
separately produces scan-ordered, pairwise non-overlapping matches;
overlap is only possible between a full-date match and a month/year
match, since the two `findall` passes run independently. -/
theorem C8_per_pattern_nonoverlap (s : String) :
    List.Pairwise (fun a b => ¬ spansOverlap (a.1, a.2.1) (b.1, b.2.1))
        (findallFullSpans s.toList)
    ∧ List.Pairwise (fun a b => ¬ spansOverlap (a.1, a.2.1) (b.1, b.2.1))
        (findallMYSpans s.toList) := by
  constructor
  · refine List.Pairwise.imp (fun hle hov => ?_)
      (spanChain_pairwise (scanAux_chain (fun cs g len h => ?_) _ _ _))
    · exact absurd hov.2 (by omega)
    · obtain ⟨m, d, y⟩ := g
      have := (matchFull_shape h).2.2.2.2.2
      omega
  · refine List.Pairwise.imp (fun hle hov => ?_)
      (spanChain_pairwise (scanAux_chain (fun cs g len h => ?_) _ _ _))
    · exact absurd hov.2 (by omega)
    · obtain ⟨m, y⟩ := g
      have := (matchMY_shape h).2.2.2.2
      omega

/-- C9: normalization maps an already-normalized date (zero-padded
`MM/DD/YYYY` or `MM/YYYY` with a four-digit year) to itself, hence is
idempotent on its own outputs, and `Normalize("7/4/2023")` is
`"07/04/2023"`. -/
theorem C9_normalize_idempotent (century d : String)
    (h : specNormalizedDate d = true) :
    normalize_expiry_date century d = some d
    ∧ (normalize_expiry_date century d).bind (normalize_expiry_date century)
        = normalize_expiry_date century d
    ∧ normalize_expiry_date century "7/4/2023" = some "07/04/2023" := by
  have h1 := normalize_fixed century h
  refine ⟨h1, ?_, ?_⟩
  · rw [h1]
    simp only [Option.bind]
    exact h1
  · unfold normalize_expiry_date
    have hp : strParts "7/4/2023" = ["7", "4", "2023"] := by decide
    rw [hp]
    dsimp only
    rw [resolve_century_of_ne (by decide)]
    rfl

theorem C9_normalize_idempotent_witness :
    normalize_expiry_date "20" "07/04/2023" = some "07/04/2023" :=
  (C9_normalize_idempotent "20" "07/04/2023" (by decide)).1

/-- C10 as stated is false on the code: `"01/0001"` is a well-formed
`MM/YYYY` with month 01, but the builder raises (the 30-day reminder
would precede the minimum representable date) instead of succeeding. -/
theorem C10_counterexample :
    isMonthTok "01" = true
      ∧ linkIsSome (create_google_calendar_link "01/0001") = false
      ∧ linkRaises (create_google_calendar_link "01/0001") = true := by decide

/-- C10 amended: for every `MM/YYYY` with `MM` in 01-12 and a
four-digit year of value at least 1, except `01/0001` (where the
builder raises), the link builder succeeds, treats the expiry date as
the first day of month `MM`, and both `dates` endpoints of the URL are
the valid calendar day exactly 30 days before that first day. -/
theorem C10_partial_date_links (mm : String) (hmm : isMonthTok mm = true)
    (y1 y2 y3 y4 : Char) (hd1 : y1.isDigit = true) (hd2 : y2.isDigit = true)
    (hd3 : y3.isDigit = true) (hd4 : y4.isDigit = true)
    (hy : 1 ≤ (y1.toNat - 48) * 1000 + (y2.toNat - 48) * 100 + (y3.toNat - 48) * 10
      + (y4.toNat - 48))
    (hne : ¬(natOfStr mm = 1
      ∧ (y1.toNat - 48) * 1000 + (y2.toNat - 48) * 100 + (y3.toNat - 48) * 10
          + (y4.toNat - 48) = 1)) :
    create_google_calendar_link (mm ++ "/" ++ (⟨[y1, y2, y3, y4]⟩ : String))
      = Except.ok (some (calendarUrl
          (fmtYmd (fromOrdinal (toOrdinal ((y1.toNat - 48) * 1000 + (y2.toNat - 48) * 100
              + (y3.toNat - 48) * 10 + (y4.toNat - 48)) (natOfStr mm) 1 - 30)).1
            (fromOrdinal (toOrdinal ((y1.toNat - 48) * 1000 + (y2.toNat - 48) * 100
              + (y3.toNat - 48) * 10 + (y4.toNat - 48)) (natOfStr mm) 1 - 30)).2.1
            (fromOrdinal (toOrdinal ((y1.toNat - 48) * 1000 + (y2.toNat - 48) * 100
              + (y3.toNat - 48) * 10 + (y4.toNat - 48)) (natOfStr mm) 1 - 30)).2.2)
          (fmtYmd (fromOrdinal (toOrdinal ((y1.toNat - 48) * 1000 + (y2.toNat - 48) * 100
              + (y3.toNat - 48) * 10 + (y4.toNat - 48)) (natOfStr mm) 1 - 30)).1
            (fromOrdinal (toOrdinal ((y1.toNat - 48) * 1000 + (y2.toNat - 48) * 100
              + (y3.toNat - 48) * 10 + (y4.toNat - 48)) (natOfStr mm) 1 - 30)).2.1
            (fromOrdinal (toOrdinal ((y1.toNat - 48) * 1000 + (y2.toNat - 48) * 100
              + (y3.toNat - 48) * 10 + (y4.toNat - 48)) (natOfStr mm) 1 - 30)).2.2)
          (mm ++ "/" ++ (⟨[y1, y2, y3, y4]⟩ : String))))
    ∧ toOrdinal
        (fromOrdinal (toOrdinal ((y1.toNat - 48) * 1000 + (y2.toNat - 48) * 100
            + (y3.toNat - 48) * 10 + (y4.toNat - 48)) (natOfStr mm) 1 - 30)).1
        (fromOrdinal (toOrdinal ((y1.toNat - 48) * 1000 + (y2.toNat - 48) * 100
            + (y3.toNat - 48) * 10 + (y4.toNat - 48)) (natOfStr mm) 1 - 30)).2.1
        (fromOrdinal (toOrdinal ((y1.toNat - 48) * 1000 + (y2.toNat - 48) * 100
            + (y3.toNat - 48) * 10 + (y4.toNat - 48)) (natOfStr mm) 1 - 30)).2.2
        + 30
      = toOrdinal ((y1.toNat - 48) * 1000 + (y2.toNat - 48) * 100 + (y3.toNat - 48) * 10
          + (y4.toNat - 48)) (natOfStr mm) 1
    ∧ ValidYMD (fromOrdinal (toOrdinal ((y1.toNat - 48) * 1000 + (y2.toNat - 48) * 100
        + (y3.toNat - 48) * 10 + (y4.toNat - 48)) (natOfStr mm) 1 - 30)) := by
  have hparsed := parse_my_builds hmm hd1 hd2 hd3 hd4 hy
  obtain ⟨hm1, hm2⟩ := monthTok_val hmm
  have hord : 30 < toOrdinal ((y1.toNat - 48) * 1000 + (y2.toNat - 48) * 100
      + (y3.toNat - 48) * 10 + (y4.toNat - 48)) (natOfStr mm) 1 :=
    toOrdinal_my_gt30 hy hm1 hm2 hne
  have hrem : 1 ≤ toOrdinal ((y1.toNat - 48) * 1000 + (y2.toNat - 48) * 100
      + (y3.toNat - 48) * 10 + (y4.toNat - 48)) (natOfStr mm) 1 - 30 := by omega
  obtain ⟨hvalid, hto⟩ := fromOrdinal_spec hrem
  refine ⟨?_, ?_, hvalid⟩
  · unfold create_google_calendar_link
    rw [hparsed]
    dsimp only
    rw [if_neg (by omega)]
  · rw [hto]
    omega

theorem C10_partial_date_links_witness :
    create_google_calendar_link ("08" ++ "/" ++ (⟨['2', '0', '2', '8']⟩ : String))
      = Except.ok (some (calendarUrl
          (fmtYmd (fromOrdinal (toOrdinal (('2'.toNat - 48) * 1000 + ('0'.toNat - 48) * 100
              + ('2'.toNat - 48) * 10 + ('8'.toNat - 48)) (natOfStr "08") 1 - 30)).1
            (fromOrdinal (toOrdinal (('2'.toNat - 48) * 1000 + ('0'.toNat - 48) * 100
              + ('2'.toNat - 48) * 10 + ('8'.toNat - 48)) (natOfStr "08") 1 - 30)).2.1
            (fromOrdinal (toOrdinal (('2'.toNat - 48) * 1000 + ('0'.toNat - 48) * 100
              + ('2'.toNat - 48) * 10 + ('8'.toNat - 48)) (natOfStr "08") 1 - 30)).2.2)
          (fmtYmd (fromOrdinal (toOrdinal (('2'.toNat - 48) * 1000 + ('0'.toNat - 48) * 100
              + ('2'.toNat - 48) * 10 + ('8'.toNat - 48)) (natOfStr "08") 1 - 30)).1
            (fromOrdinal (toOrdinal (('2'.toNat - 48) * 1000 + ('0'.toNat - 48) * 100
              + ('2'.toNat - 48) * 10 + ('8'.toNat - 48)) (natOfStr "08") 1 - 30)).2.1
            (fromOrdinal (toOrdinal (('2'.toNat - 48) * 1000 + ('0'.toNat - 48) * 100
              + ('2'.toNat - 48) * 10 + ('8'.toNat - 48)) (natOfStr "08") 1 - 30)).2.2)
          ("08" ++ "/" ++ (⟨['2', '0', '2', '8']⟩ : String))))
    ∧ toOrdinal
        (fromOrdinal (toOrdinal (('2'.toNat - 48) * 1000 + ('0'.toNat - 48) * 100
            + ('2'.toNat - 48) * 10 + ('8'.toNat - 48)) (natOfStr "08") 1 - 30)).1
        (fromOrdinal (toOrdinal (('2'.toNat - 48) * 1000 + ('0'.toNat - 48) * 100
            + ('2'.toNat - 48) * 10 + ('8'.toNat - 48)) (natOfStr "08") 1 - 30)).2.1
        (fromOrdinal (toOrdinal (('2'.toNat - 48) * 1000 + ('0'.toNat - 48) * 100
            + ('2'.toNat - 48) * 10 + ('8'.toNat - 48)) (natOfStr "08") 1 - 30)).2.2
        + 30
      = toOrdinal (('2'.toNat - 48) * 1000 + ('0'.toNat - 48) * 100 + ('2'.toNat - 48) * 10
          + ('8'.toNat - 48)) (natOfStr "08") 1
    ∧ ValidYMD (fromOrdinal (toOrdinal (('2'.toNat - 48) * 1000 + ('0'.toNat - 48) * 100
        + ('2'.toNat - 48) * 10 + ('8'.toNat - 48)) (natOfStr "08") 1 - 30)) :=
  C10_partial_date_links "08" (by decide) '2' '0' '2' '8'
    (by decide) (by decide) (by decide) (by decide) (by decide) (by decide)

end OCRApp
